import Mathlib

/-!
# BJBigler/render: a shallow embedding of `render.go` and `formatters.go`

Go strings are byte sequences, so a string is a list of byte values and
`len`, indexing and slicing count bytes.  The embedding keeps the names
of the Go functions.
-/

namespace Render

/-! ## Go strings -/

/-- A Go string: its bytes, each a value in `0..255`. -/
abbrev GoString := List Nat

/-- The UTF-8 encoding of one code point, as Go source literals are stored. -/
def utf8Bytes (c : Nat) : List Nat :=
  if c < 0x80 then [c]
  else if c < 0x800 then [0xC0 + c / 64, 0x80 + c % 64]
  else if c < 0x10000 then [0xE0 + c / 4096, 0x80 + c / 64 % 64, 0x80 + c % 64]
  else [0xF0 + c / 262144, 0x80 + c / 4096 % 64, 0x80 + c / 64 % 64, 0x80 + c % 64]

/-- The Go string denoted by a source literal. -/
def str (s : String) : GoString :=
  s.toList.flatMap (fun c => utf8Bytes c.toNat)

/-- The slice expression `s[lo:hi]`, for bounds `lo ≤ hi ≤ len(s)`. -/
def slice (s : GoString) (lo hi : Nat) : GoString :=
  (s.take hi).drop lo

/-- The slice expression `s[lo:]`, for `lo ≤ len(s)`. -/
def sliceFrom (s : GoString) (lo : Nat) : GoString :=
  s.drop lo

/-! ## Values, errors and outcomes -/

/-- A Go `error` value.  Errors built in this package (`fmt.Errorf`,
`errors.New`) are told apart from the ones the libraries hand back; each
carries the text its `Error()` method yields. -/
inductive GoError where
  | errorf (text : GoString)
  | parseErr (text : GoString)
  | execErr (text : GoString)
  | readErr (text : GoString)
  | writeErr (text : GoString)
  | runtimeErr (text : GoString)
deriving DecidableEq

/-- The method `Error()`. -/
def GoError.Error : GoError → GoString
  | .errorf t => t
  | .parseErr t => t
  | .execErr t => t
  | .readErr t => t
  | .writeErr t => t
  | .runtimeErr t => t

/-- How a call ends: it returns a value, or it panics with one. -/
inductive Outcome (α : Type) where
  | ret (a : α)
  | panicked (e : GoError)
deriving DecidableEq

/-- A call into a library or the environment, in the order it happens. -/
inductive Event where
  | getFuncMap
  | parseFiles (name : GoString) (files : List GoString)
  | parseText (name : GoString) (text : GoString)
  | execute
  | readFile (path : GoString)
  | println (text : GoString)
deriving DecidableEq

/-- A finished call: the library calls it made, and how it ended. -/
structure Run (α : Type) where
  events : List Event
  outcome : Outcome α

/-- The error a call returned; `none` when it panicked instead. -/
def returnedError {α : Type} : Outcome (α × Option GoError) → Option (Option GoError)
  | .ret (_, err) => some err
  | .panicked _ => none

/-- The value a call returned next to its error; `none` when it panicked. -/
def returnedValue {α : Type} : Outcome (α × Option GoError) → Option α
  | .ret (a, _) => some a
  | .panicked _ => none

/-! ## net/http: the response writer -/

/-- Whether `c` may stand in a header field name (an HTTP token byte). -/
def validHeaderFieldByte (c : Nat) : Bool :=
  (48 ≤ c && c ≤ 57) || (65 ≤ c && c ≤ 90) || (97 ≤ c && c ≤ 122)
    || [33, 35, 36, 37, 38, 39, 42, 43, 45, 46, 94, 95, 96, 124, 126].contains c

/-- The loop of `textproto.CanonicalMIMEHeaderKey`: upper case at the start
and after each dash, lower case elsewhere. -/
def canonicalLoop : Bool → GoString → GoString
  | _, [] => []
  | upper, c :: rest =>
    let c1 :=
      if upper && (97 ≤ c && c ≤ 122) then c - 32
      else if !upper && (65 ≤ c && c ≤ 90) then c + 32
      else c
    c1 :: canonicalLoop (c1 == 45) rest

/-- The key under which `http.Header` files a field name: a name that is
not a token is kept as it is. -/
def CanonicalMIMEHeaderKey (s : GoString) : GoString :=
  if s.all validHeaderFieldByte then canonicalLoop true s else s

/-- An `http.ResponseWriter` as the handler sees it: the header map, the
status line once it is sent, the bytes accepted so far, and how the
connection behaves (`fault = some (k, text)`: after `k` more bytes every
`Write` fails, with an error of that text). -/
structure ResponseWriter where
  header : GoString → List GoString
  status : Option Nat
  body : List Nat
  fault : Option (Nat × GoString)

/-- The call `w.Header().Set(key, value)`. -/
def ResponseWriter.headerSet (w : ResponseWriter) (key value : GoString) : ResponseWriter :=
  { w with header := Function.update w.header (CanonicalMIMEHeaderKey key) [value] }

/-- The call `w.Header().Add(key, value)`. -/
def ResponseWriter.headerAdd (w : ResponseWriter) (key value : GoString) : ResponseWriter :=
  let k := CanonicalMIMEHeaderKey key
  { w with header := Function.update w.header k (w.header k ++ [value]) }

/-- The call `w.WriteHeader(code)`: only the first status line counts. -/
def ResponseWriter.WriteHeader (w : ResponseWriter) (code : Nat) : ResponseWriter :=
  match w.status with
  | none => { w with status := some code }
  | some _ => w

/-- The call `w.Write(p)`: the status line goes out as 200 when none was
sent, then the bytes the connection accepts are appended. -/
def ResponseWriter.Write (w : ResponseWriter) (p : List Nat) :
    ResponseWriter × Option GoError :=
  let w1 := w.WriteHeader 200
  match w1.fault with
  | none => ({ w1 with body := w1.body ++ p }, none)
  | some (k, e) =>
    if p.length ≤ k then
      ({ w1 with body := w1.body ++ p, fault := some (k - p.length, e) }, none)
    else
      ({ w1 with body := w1.body ++ p.take k, fault := some (0, e) }, some (.writeErr e))

/-- The call `bytes.NewBuffer(p).WriteTo(w)`: an empty buffer writes nothing. -/
def bufferWriteTo (w : ResponseWriter) (p : List Nat) : ResponseWriter × Option GoError :=
  if p.length > 0 then w.Write p else (w, none)

/-- A response nothing has touched, on a connection that accepts everything. -/
def freshResponse : ResponseWriter :=
  { header := fun _ => [], status := none, body := [], fault := none }

/-- The call `http.Error(w, text, code)`. -/
def httpError (w : ResponseWriter) (text : GoString) (code : Nat) : ResponseWriter :=
  let w1 := w.headerSet (str "Content-Type") (str "text/plain; charset=utf-8")
  let w2 := w1.headerSet (str "X-Content-Type-Options") (str "nosniff")
  let w3 := w2.WriteHeader code
  (w3.Write (text ++ [10])).1

/-! ## unicode/utf8, strings, strconv, encoding/json -/

/-- The rune `utf8.RuneError`. -/
def RuneError : Nat := 0xFFFD

/-- The call `utf8.DecodeRuneInString(s)`: the first rune and its width;
`(RuneError, 1)` for an invalid encoding. -/
def DecodeRune (s : GoString) : Nat × Nat :=
  match s with
  | [] => (RuneError, 0)
  | s0 :: t =>
    if s0 < 0x80 then (s0, 1)
    else if s0 < 0xC2 || 0xF4 < s0 then (RuneError, 1)
    else
      let sz := if s0 < 0xE0 then 2 else if s0 < 0xF0 then 3 else 4
      let lo := if s0 = 0xE0 then 0xA0 else if s0 = 0xF0 then 0x90 else 0x80
      let hi := if s0 = 0xED then 0x9F else if s0 = 0xF4 then 0x8F else 0xBF
      if s.length < sz then (RuneError, 1)
      else
        match t with
        | [] => (RuneError, 1)
        | s1 :: t1 =>
          if s1 < lo || hi < s1 then (RuneError, 1)
          else if sz ≤ 2 then (s0 % 32 * 64 + s1 % 64, 2)
          else
            match t1 with
            | [] => (RuneError, 1)
            | s2 :: t2 =>
              if s2 < 0x80 || 0xBF < s2 then (RuneError, 1)
              else if sz ≤ 3 then (s0 % 16 * 4096 + s1 % 64 * 64 + s2 % 64, 3)
              else
                match t2 with
                | [] => (RuneError, 1)
                | s3 :: _ =>
                  if s3 < 0x80 || 0xBF < s3 then (RuneError, 1)
                  else (s0 % 8 * 262144 + s1 % 64 * 4096 + s2 % 64 * 64 + s3 % 64, 4)

/-- The loop of `utf8.DecodeLastRuneInString` that walks back from `start`
to the first byte, not below `lim`, that starts a rune. -/
def runeStartBack (s : GoString) (lim : Int) : Nat → Int → Int
  | 0, start => start
  | fuel + 1, start =>
    if start < lim then start
    else if s.getD start.toNat 0 / 64 % 4 ≠ 2 then start
    else runeStartBack s lim fuel (start - 1)

/-- The call `utf8.DecodeLastRuneInString(s)`: the last rune and its width. -/
def DecodeLastRune (s : GoString) : Nat × Nat :=
  let stop := s.length
  if stop = 0 then (RuneError, 0)
  else
    let r := s.getD (stop - 1) 0
    if r < 0x80 then (r, 1)
    else
      let lim : Int := max 0 ((stop : Int) - 4)
      let start0 := runeStartBack s lim 4 ((stop : Int) - 2)
      let start := if start0 < 0 then 0 else start0.toNat
      let (r1, size) := DecodeRune (slice s start stop)
      if start + size ≠ stop then (RuneError, 1) else (r1, size)

/-- The predicate `unicode.IsSpace`. -/
def IsSpace (r : Nat) : Bool :=
  (9 ≤ r && r ≤ 13) || r == 32 || r == 0x85 || r == 0xA0 || r == 0x1680
    || (0x2000 ≤ r && r ≤ 0x200A) || r == 0x2028 || r == 0x2029 || r == 0x202F
    || r == 0x205F || r == 0x3000

/-- The loop of `indexFunc(s, unicode.IsSpace, false)` from index `i` on:
the index of the first rune that is no white space, `-1` when there is
none. -/
def indexNonSpace (s : GoString) : Nat → Nat → Int
  | 0, _ => -1
  | fuel + 1, i =>
    if s.length ≤ i then -1
    else if IsSpace (DecodeRune (sliceFrom s i)).1 then
      indexNonSpace s fuel (i + (DecodeRune (sliceFrom s i)).2)
    else (i : Int)

/-- The call `strings.TrimLeftFunc(s, unicode.IsSpace)`. -/
def TrimLeftSpace (s : GoString) : GoString :=
  if indexNonSpace s s.length 0 = -1 then []
  else sliceFrom s (indexNonSpace s s.length 0).toNat

/-- The loop of `lastIndexFunc(s, unicode.IsSpace, false)` on `s[:i]`: the
index at which the last rune that is no white space starts, `-1` when there
is none. -/
def lastIndexNonSpace (s : GoString) : Nat → Nat → Int
  | 0, _ => -1
  | fuel + 1, i =>
    if i = 0 then -1
    else if IsSpace (DecodeLastRune (slice s 0 i)).1 then
      lastIndexNonSpace s fuel (i - (DecodeLastRune (slice s 0 i)).2)
    else ((i - (DecodeLastRune (slice s 0 i)).2 : Nat) : Int)

/-- The call `strings.TrimRightFunc(s, unicode.IsSpace)`. -/
def TrimRightSpace (s : GoString) : GoString :=
  let i := lastIndexNonSpace s s.length s.length
  if 0 ≤ i ∧ 0x80 ≤ s.getD i.toNat 0 then
    slice s 0 (i.toNat + (DecodeRune (sliceFrom s i.toNat)).2)
  else slice s 0 (i + 1).toNat

/-- The call `strings.TrimSpace(s)`: `s` without its leading and trailing
white space, as `strings.TrimFunc(s, unicode.IsSpace)` gives it (the
library's shortcut for ASCII comes to the same). -/
def TrimSpace (s : GoString) : GoString :=
  TrimRightSpace (TrimLeftSpace s)

/-- The loop of `strings.LastIndexByte`: the indices below `n` are still
to be looked at, from the highest down. -/
def lastIndexLoop (s : GoString) (c : Nat) : Nat → Int
  | 0 => -1
  | i + 1 => if s.getD i 0 = c then (i : Int) else lastIndexLoop s c i

/-- The call `strings.LastIndex(s, sep)` for a separator of one byte `c`:
the index of the last `c` in `s`, `-1` when there is none. -/
def LastIndexByte (s : GoString) (c : Nat) : Int :=
  lastIndexLoop s c s.length

/-- The call `strings.Split(s, sep)` for a separator of one byte `c`: the
pieces between the separators, one more than there are separators. -/
def Split (c : Nat) : GoString → List GoString
  | [] => [[]]
  | b :: rest =>
    if b = c then [] :: Split c rest
    else
      match Split c rest with
      | [] => [[b]]
      | piece :: pieces => (b :: piece) :: pieces

/-- The decimal digits of a natural number. -/
def natDigits (n : Nat) : GoString :=
  (Nat.toDigits 10 n).map Char.toNat

/-- The verb `%v` (or `strconv.Itoa`) at an integer. -/
def itoa (n : Int) : GoString :=
  if n < 0 then [45] ++ natDigits n.natAbs else natDigits n.natAbs

/-- The lower-case hexadecimal digit of `n < 16`. -/
def hexDigit (n : Nat) : Nat :=
  if n < 10 then 48 + n else 87 + n

/-- How `encoding/json` writes one ASCII byte of a string, with its HTML
escaping switched on as `json.Marshal` has it.  (Releases from Go 1.22 on
write the bytes 8 and 12 as a two-letter escape; the others are the same.) -/
def jsonEscapeByte (b : Nat) : GoString :=
  if b = 92 || b = 34 then [92, b]
  else if b = 10 then [92, 110]
  else if b = 13 then [92, 114]
  else if b = 9 then [92, 116]
  else if b < 32 || b = 60 || b = 62 || b = 38 then
    [92, 117, 48, 48, hexDigit (b / 16), hexDigit (b % 16)]
  else [b]

/-- The body of a JSON string as `encoding/json` writes it: ASCII bytes
escaped one at a time, a byte that is no valid UTF-8 replaced by the escape
of U+FFFD, the separators U+2028 and U+2029 written as escapes, any other
rune copied. -/
def jsonEscape : Nat → GoString → GoString
  | 0, _ => []
  | _, [] => []
  | fuel + 1, b :: rest =>
    if b < 0x80 then jsonEscapeByte b ++ jsonEscape fuel rest
    else
      let (c, size) := DecodeRune (b :: rest)
      if c = RuneError ∧ size = 1 then
        [92, 117, 102, 102, 102, 100] ++ jsonEscape fuel rest
      else if c = 0x2028 ∨ c = 0x2029 then
        [92, 117, 50, 48, 50, hexDigit (c % 16)] ++ jsonEscape fuel (rest.drop (size - 1))
      else
        (b :: rest).take size ++ jsonEscape fuel (rest.drop (size - 1))

/-- The call `json.Marshal(s)` at a string. -/
def jsonString (s : GoString) : GoString :=
  [34] ++ jsonEscape s.length s ++ [34]

/-- A field of the local `helper` structs: its `json` tag and its value. -/
inductive JSONField where
  | int (tag : GoString) (v : Int)
  | string (tag : GoString) (v : GoString)

/-- One `"tag":value` member. -/
def JSONField.encode : JSONField → GoString
  | .int tag v => [34] ++ tag ++ [34, 58] ++ itoa v
  | .string tag v => [34] ++ tag ++ [34, 58] ++ jsonString v

/-- The call `json.Marshal(h)` at a struct of tagged int and string fields:
the members in declaration order, comma separated, in braces. -/
def jsonMarshalStruct (fields : List JSONField) : GoString :=
  [123] ++ ((fields.map JSONField.encode).intersperse [44]).flatten ++ [125]

/-! ## html/template and the file system, as the package sees them -/

/-- The data handed to `Execute`: the model itself, or a pointer to it. -/
inductive Data (M : Type) where
  | val (model : M)
  | ptr (model : M)

/-- The template library (`html/template` with the function map attached),
taken as given.  `parseFiles name files` stands for
`template.New(name).Funcs(funcMap).ParseFiles(files...)`, `parseText name
text` for `template.New(name).Funcs(funcMap).Parse(text)`; each yields the
template or the text of the error.  `execute t data` is the output `t`
produces and the text of the error that stopped it, if any. -/
structure Engine (T M : Type) where
  parseFiles : GoString → List GoString → Except GoString T
  parseText : GoString → GoString → Except GoString T
  execute : T → Data M → List Nat × Option GoString

/-- The call `t.Execute(w, data)` on a response: the output goes to `w`; a
failed write ends the execution with the writer's error. -/
def executeTo {T M : Type} (E : Engine T M) (t : T) (w : ResponseWriter) (data : Data M) :
    ResponseWriter × Option GoError :=
  let r := bufferWriteTo w (E.execute t data).1
  match r.2 with
  | some e => (r.1, some e)
  | none => (r.1, (E.execute t data).2.map GoError.execErr)

/-- The call `t.Execute(&doc, data)` on a fresh `bytes.Buffer`, which takes
every byte: the buffer's content and the error. -/
def executeToBuffer {T M : Type} (E : Engine T M) (t : T) (data : Data M) :
    GoString × Option GoError :=
  ((E.execute t data).1, (E.execute t data).2.map GoError.execErr)

/-- The file system: `ioutil.ReadFile(path)` yields the bytes or the text
of the error. -/
abbrev FileSystem := GoString → Except GoString (List Nat)

/-- A `map[string]*template.Template`: the template filed under each key. -/
abbrev Catalog (T : Type) := GoString → Option T

/-- The empty map `make(map[string]*template.Template)`. -/
def Catalog.empty {T : Type} : Catalog T := fun _ => none

/-! ## render.go -/

/-- The loop of `ParseTemplateSets` over the sets still to do: `templates`
is the map so far, `events` the calls made so far. -/
def parseSetsLoop {T M : Type} (E : Engine T M) (baseTemplate templateName : GoString) :
    List (List GoString) → Catalog T → List Event → Run (Option (Catalog T) × Option GoError)
  | [], templates, events => ⟨events, .ret (some templates, none)⟩
  | set :: rest, templates, events =>
    match set with
    | [] =>
      ⟨events, .panicked (.runtimeErr (str "runtime error: slice bounds out of range [1:0]"))⟩
    | lookupName :: fragments =>
      let templateSet := [baseTemplate] ++ fragments
      match E.parseFiles templateName templateSet with
      | .error e =>
        ⟨events ++ [.parseFiles templateName templateSet], .ret (none, some (.parseErr e))⟩
      | .ok t =>
        parseSetsLoop E baseTemplate templateName rest
          (Function.update templates lookupName (some t))
          (events ++ [.parseFiles templateName templateSet])

/-- `ParseTemplateSets` (render.go): one template per set, filed under the
set's first string. -/
def ParseTemplateSets {T M : Type} (E : Engine T M) (baseTemplate : GoString)
    (sets : List (List GoString)) : Run (Option (Catalog T) × Option GoError) :=
  let templateParts := Split 47 baseTemplate
  let templateName :=
    if templateParts.length > 0 then templateParts.getD (templateParts.length - 1) []
    else baseTemplate
  parseSetsLoop E baseTemplate templateName sets Catalog.empty [.getFuncMap]

/-- `Template` (render.go): executes the template filed under
`templateIndex`, on a pointer to the model. -/
def Template {T M : Type} (E : Engine T M) (w : ResponseWriter) (templates : Catalog T)
    (model : M) (templateIndex : GoString) : Run (ResponseWriter × Option GoError) :=
  match templates templateIndex with
  | some template => ⟨[.execute], .ret (executeTo E template w (.ptr model))⟩
  | none =>
    ⟨[], .ret (w, some (.errorf (str "template " ++ templateIndex ++ str " not found")))⟩

/-- `ToBrowser` (render.go): the master template and the given ones. -/
def ToBrowser {T M : Type} (E : Engine T M) (w : ResponseWriter) (model : M)
    (templates : List GoString) : Run (ResponseWriter × Option GoError) :=
  let templates := [str "views/master.html"] ++ templates
  match E.parseFiles (str "master.html") templates with
  | .error e =>
    ⟨[.getFuncMap, .parseFiles (str "master.html") templates], .panicked (.parseErr e)⟩
  | .ok t =>
    let r := executeTo E t w (.val model)
    match r.2 with
    | some err =>
      ⟨[.getFuncMap, .parseFiles (str "master.html") templates, .execute, .println err.Error],
        .ret (r.1, some err)⟩
    | none =>
      ⟨[.getFuncMap, .parseFiles (str "master.html") templates, .execute], .ret (r.1, none)⟩

/-- `ToBrowserNoMaster` (render.go). -/
def ToBrowserNoMaster {T M : Type} (E : Engine T M) (w : ResponseWriter)
    (instanceTemplate : GoString) (model : M) : Run (ResponseWriter × Option GoError) :=
  let positionOfLastSlash := LastIndexByte instanceTemplate 47
  let templateName := sliceFrom instanceTemplate (positionOfLastSlash + 1).toNat
  match E.parseFiles templateName [instanceTemplate] with
  | .error e =>
    ⟨[.getFuncMap, .parseFiles templateName [instanceTemplate]], .panicked (.parseErr e)⟩
  | .ok t =>
    let r := executeTo E t w (.val model)
    match r.2 with
    | some err =>
      ⟨[.getFuncMap, .parseFiles templateName [instanceTemplate], .execute],
        .ret (r.1, some err)⟩
    | none =>
      ⟨[.getFuncMap, .parseFiles templateName [instanceTemplate], .execute], .ret (r.1, none)⟩

/-- `ToBrowserNoMasterNew` (render.go): a failed execution is answered with
`http.Error`, and `nil` is returned. -/
def ToBrowserNoMasterNew {T M : Type} (E : Engine T M) (w : ResponseWriter) (model : M)
    (templates : List GoString) : Run (ResponseWriter × Option GoError) :=
  if templates.length = 0 then
    ⟨[], .ret (w, some (.errorf (str "no templates supplied")))⟩
  else
    let positionOfLastSlash := LastIndexByte (templates.getD 0 []) 47
    let templateName := sliceFrom (templates.getD 0 []) (positionOfLastSlash + 1).toNat
    match E.parseFiles templateName templates with
    | .error e => ⟨[.getFuncMap, .parseFiles templateName templates], .panicked (.parseErr e)⟩
    | .ok t =>
      let r := executeTo E t w (.val model)
      match r.2 with
      | some err =>
        ⟨[.getFuncMap, .parseFiles templateName templates, .execute],
          .ret (httpError r.1 err.Error 500, none)⟩
      | none => ⟨[.getFuncMap, .parseFiles templateName templates, .execute], .ret (r.1, none)⟩

/-- `ToString` (render.go): the rendered fragment as a string. -/
def ToString {T M : Type} (E : Engine T M) (model : M) (templates : List GoString) :
    Run (GoString × Option GoError) :=
  if templates.length = 0 then
    ⟨[], .ret ([], some (.errorf (str "no template(s) specified")))⟩
  else
    let instanceTemplate := templates.getD 0 []
    let positionOfLastSlash := LastIndexByte instanceTemplate 47
    let templateName := sliceFrom instanceTemplate (positionOfLastSlash + 1).toNat
    match E.parseFiles templateName templates with
    | .error e => ⟨[.getFuncMap, .parseFiles templateName templates], .panicked (.parseErr e)⟩
    | .ok t =>
      let doc := executeToBuffer E t (.val model)
      match doc.2 with
      | some err => ⟨[.getFuncMap, .parseFiles templateName templates, .execute],
          .ret ([], some err)⟩
      | none => ⟨[.getFuncMap, .parseFiles templateName templates, .execute],
          .ret (doc.1, none)⟩

/-- `ToStringFromString` (render.go): renders a template given as text. -/
def ToStringFromString {T M : Type} (E : Engine T M) (html : GoString) (model : M) :
    Run (GoString × Option GoError) :=
  match E.parseText (str "template") html with
  | .error e =>
    ⟨[.getFuncMap, .parseText (str "template") html], .ret ([], some (.parseErr e))⟩
  | .ok t =>
    let b := executeToBuffer E t (.val model)
    match b.2 with
    | some err => ⟨[.getFuncMap, .parseText (str "template") html, .execute],
        .ret ([], some err)⟩
    | none => ⟨[.getFuncMap, .parseText (str "template") html, .execute],
        .ret (b.1, none)⟩

/-- `ToHTMLOld` (render.go): one template rendered as `template.HTML`. -/
def ToHTMLOld {T M : Type} (E : Engine T M) (instanceTemplate : GoString) (model : M) :
    Run (GoString × Option GoError) :=
  let positionOfLastSlash := LastIndexByte instanceTemplate 47
  let templateName := sliceFrom instanceTemplate (positionOfLastSlash + 1).toNat
  match E.parseFiles templateName [instanceTemplate] with
  | .error e =>
    ⟨[.getFuncMap, .parseFiles templateName [instanceTemplate]], .panicked (.parseErr e)⟩
  | .ok t =>
    let doc := executeToBuffer E t (.val model)
    match doc.2 with
    | some err => ⟨[.getFuncMap, .parseFiles templateName [instanceTemplate], .execute],
        .ret ([], some err)⟩
    | none => ⟨[.getFuncMap, .parseFiles templateName [instanceTemplate], .execute],
        .ret (doc.1, none)⟩

/-- `ToHTML` (render.go): the rendered fragment as `template.HTML`; the
template name is trimmed of white space. -/
def ToHTML {T M : Type} (E : Engine T M) (model : M) (templates : List GoString) :
    Run (GoString × Option GoError) :=
  if templates.length = 0 then
    ⟨[], .ret ([], some (.errorf (str "no templates passed into ToHTML()")))⟩
  else
    let positionOfLastSlash := LastIndexByte (templates.getD 0 []) 47
    let templateName :=
      TrimSpace (sliceFrom (templates.getD 0 []) (positionOfLastSlash + 1).toNat)
    match E.parseFiles templateName templates with
    | .error e =>
      ⟨[.getFuncMap, .parseFiles templateName templates], .ret ([], some (.parseErr e))⟩
    | .ok t =>
      let doc := executeToBuffer E t (.val model)
      match doc.2 with
      | some err => ⟨[.getFuncMap, .parseFiles templateName templates, .execute],
          .ret ([], some err)⟩
      | none => ⟨[.getFuncMap, .parseFiles templateName templates, .execute],
          .ret (doc.1, none)⟩

/-- `JSONToBrowser` (render.go): the JSON headers, then the bytes. -/
def JSONToBrowser (w : ResponseWriter) (json : List Nat) : ResponseWriter × Option GoError :=
  let w1 := w.headerSet (str "Content-Type") (str "application/json")
  let w2 := w1.headerAdd (str "Access-Control-Allow-Credentials") (str "true")
  let w3 := w2.headerSet (str "Access-Control-Allow-Methods")
    (str "POST, GET, OPTIONS, PUT, DELETE")
  let w4 := w3.headerSet (str "Access-Control-Allow-Origin") (str "*")
  w4.Write json

/-- `PDFToBrowser` (render.go): reads the whole file, then sets the headers
and writes the bytes. -/
def PDFToBrowser (fs : FileSystem) (w : ResponseWriter) (path : GoString) :
    Run (ResponseWriter × Option GoError) :=
  match fs path with
  | .error e => ⟨[.readFile path], .ret (w, some (.readErr e))⟩
  | .ok streamPDFbytes =>
    let lastSlash := LastIndexByte path 47
    let filename := sliceFrom path (lastSlash + 1).toNat
    let w1 := w.headerSet (str "Content-type") (str "application/pdf")
    let w2 := w1.headerSet (str "Content-Disposition") (str "inline;filename=" ++ filename)
    let w3 := w2.headerAdd (str "Access-Control-Allow-Credentials") (str "true")
    ⟨[.readFile path], .ret (bufferWriteTo w3 streamPDFbytes)⟩

/-- The JSON text `RedirectTo` builds; `url` is `redirectURL.String()`. -/
def RedirectToJSON (url : GoString) : GoString :=
  str "\x7b\"statusCode\": " ++ itoa 6 ++ str ", \"redirectTo\":\"" ++ url ++ str "\" \x7d"

/-- `RedirectTo` (render.go). -/
def RedirectTo (w : ResponseWriter) (url : GoString) : ResponseWriter :=
  (JSONToBrowser w (RedirectToJSON url)).1

/-- The JSON text `ReportRedirect` builds. -/
def ReportRedirectJSON (redirect : GoString) : GoString :=
  jsonMarshalStruct [.int (str "statusCode") 1, .string (str "redirect") redirect]

/-- `ReportRedirect` (render.go). -/
def ReportRedirect (w : ResponseWriter) (redirect : GoString) : ResponseWriter :=
  (JSONToBrowser w (ReportRedirectJSON redirect)).1

/-- Whether `encoding/csv` puts a field in quotes: a field with a quote, a
comma or a line break, the field `\.`, or one that starts with white space. -/
def csvFieldNeedsQuotes (field : GoString) : Bool :=
  if field = [] then false
  else if field = str "\\." then true
  else if field.any (fun c => c == 10 || c == 13 || c == 34 || c == 44) then true
  else IsSpace (DecodeRune field).1

/-- The inside of a quoted field: every quote doubled, the rest copied. -/
def csvQuoted : GoString → GoString
  | [] => []
  | c :: rest => if c = 34 then [34, 34] ++ csvQuoted rest else c :: csvQuoted rest

/-- One field as `csv.Writer` writes it. -/
def csvField (field : GoString) : GoString :=
  if csvFieldNeedsQuotes field then [34] ++ csvQuoted field ++ [34] else field

/-- The call `csvWriter.Write(record)`: the fields with commas between
them, then a line feed. -/
def csvRecord (record : List GoString) : GoString :=
  ((record.map csvField).intersperse [44]).flatten ++ [10]

/-- The call `csvWriter.WriteAll(records)` on a buffer: all records, flushed. -/
def csvWriteAll (records : List (List GoString)) : GoString :=
  (records.map csvRecord).flatten

/-- `CsvToBrowser` (render.go): the CSV headers, then the records. -/
def CsvToBrowser (w : ResponseWriter) (csvRecords : List (List GoString))
    (filename : GoString) : ResponseWriter :=
  let w1 := w.headerSet (str "Content-Type") (str "text/csv")
  let w2 := w1.headerSet (str "Content-Disposition") (str "attachment;filename=" ++ filename)
  let w3 := w2.headerAdd (str "Access-Control-Allow-Credentials") (str "true")
  (w3.Write (csvWriteAll csvRecords)).1

/-- `WriteXlsToBrowser` (render.go), its unused context left out: the
headers, then the text; the text of a write error is printed to `w`. -/
def WriteXlsToBrowser (w : ResponseWriter) (xls filename : GoString) : ResponseWriter :=
  let w1 := w.headerSet (str "Content-Type") (str "application/vnd.ms-excel")
  let w2 := w1.headerSet (str "Content-Disposition") (str "attachment;filename=" ++ filename)
  let w3 := w2.headerAdd (str "Access-Control-Allow-Credentials") (str "true")
  let r := bufferWriteTo w3 xls
  match r.2 with
  | some err => (r.1.Write err.Error).1
  | none => r.1

/-- `WriteIcsToBrowser` (render.go): the headers, then the calendar; the
text of a write error is printed to `w`. -/
def WriteIcsToBrowser (w : ResponseWriter) (calendar filename : GoString) : ResponseWriter :=
  let w1 := w.headerSet (str "Content-Type") (str "text/calendar")
  let w2 := w1.headerSet (str "Content-Disposition") (str "attachment;filename=" ++ filename)
  let w3 := w2.headerAdd (str "Access-Control-Allow-Credentials") (str "true")
  let r := bufferWriteTo w3 calendar
  match r.2 with
  | some err => (r.1.Write err.Error).1
  | none => r.1

/-! ## formatters.go -/

/-- `FormatPhone` (formatters.go): ten bytes are laid out as
`(xxx) xxx-xxxx`, anything else is returned as it is. -/
def FormatPhone (n : GoString) : GoString :=
  if n.length = 10 then
    str "(" ++ slice n 0 3 ++ str ") " ++ slice n 3 6 ++ str "-" ++ slice n 6 10
  else
    n

/-- Zeros in front of the digits up to `width`. -/
def padZeros (width : Nat) (digits : GoString) : GoString :=
  List.replicate (width - digits.length) 48 ++ digits

/-- The verb `%02d` of `fmt` at an integer: at least two characters, zeros
in front; the sign of a negative number counts as one of them. -/
def fmt02d (n : Int) : GoString :=
  if n < 0 then [45] ++ padZeros 1 (natDigits n.natAbs) else padZeros 2 (natDigits n.natAbs)

/-- `Int64ToTime` (formatters.go): `v/100` and `v%100`, each with `%02d`,
around a colon; the division of Go truncates toward zero. -/
def Int64ToTime (v : Int) : GoString :=
  let hours := fmt02d (Int.tdiv v 100)
  let minutes := fmt02d (Int.tmod v 100)
  hours ++ str ":" ++ minutes

/-- The literal `Dashes` appends, with the bytes it has in the source file. -/
def dashLiteral : GoString := [0xC3, 0xA2, 0xE2, 0x82, 0xAC, 0xE2, 0x80, 0x9D]

/-- The value of an `int64` (or `int`) expression: what is left of the
mathematical result in 64 bits, two's complement. -/
def wrapInt64 (x : Int) : Int :=
  (x + 9223372036854775808) % 18446744073709551616 - 9223372036854775808

/-- The loop of `Dashes` with `count` rounds still to go. -/
def dashesLoop : Nat → GoString → GoString
  | 0, result => result
  | count + 1, result => dashesLoop count (result ++ dashLiteral)

/-- `Dashes` (formatters.go): the literal once for every `i` with
`0 ≤ i < level - 1`. -/
def Dashes (level : Int) : GoString :=
  dashesLoop (wrapInt64 (level - 1)).toNat []

/-- The loop of `intPow`, `for i := int64(2); i <= m; i++`, from the
counter `i` on: `none` when it has not ended after `fuel` rounds. -/
def intPowLoop (n m : Int) : Nat → Int → Int → Option Int
  | 0, _, _ => none
  | fuel + 1, i, result =>
    if i ≤ m then intPowLoop n m fuel (wrapInt64 (i + 1)) (wrapInt64 (result * n))
    else some result

/-- `intPow` (formatters.go) run for at most `fuel` rounds of its loop. -/
def intPow (fuel : Nat) (n m : Int) : Option Int :=
  if m = 0 then some 1 else intPowLoop n m fuel 2 n

/-- A value handed to a template helper as `interface{}`: a string, or a
value of another type. -/
inductive GoValue where
  | string (s : GoString)
  | other (id : Nat)
deriving DecidableEq

/-- A `map[string]interface{}`: the value filed under each key. -/
abbrev Dict := GoString → Option GoValue

/-- The loop of `DictHelper` over the arguments from index `i` on, two at a
time: `values[i]` must be a string, and `values[i+1]` is filed under it. -/
def dictLoop : List GoValue → Dict → Outcome (Option Dict × Option GoError)
  | [], dict => .ret (some dict, none)
  | .other _ :: _, _ => .ret (none, some (.errorf (str "dict keys must be strings")))
  | [.string _], _ => .panicked (.runtimeErr (str "index out of range"))
  | .string key :: value :: rest, dict =>
    dictLoop rest (Function.update dict key (some value))

/-- `DictHelper` (formatters.go): a map from the arguments taken as keys
and values in turn. -/
def DictHelper (values : List GoValue) : Outcome (Option Dict × Option GoError) :=
  if values.length % 2 ≠ 0 then .ret (none, some (.errorf (str "invalid dict call")))
  else dictLoop values (fun _ => none)

/-! ## Reading an envelope -/

/-- Whether the JSON text holds a member named `tag`, that is the text
`"tag":`. -/
def hasField (tag json : GoString) : Bool :=
  json.tails.any (fun t => ([34] ++ tag ++ [34, 58]).isPrefixOf t)

/-- What follows `lead` at the start of `s`, when `s` starts with it. -/
def afterLead : GoString → GoString → Option GoString
  | [], s => some s
  | _ :: _, [] => none
  | a :: lead, b :: s => if a = b then afterLead lead s else none

/-- The number an envelope gives as its `statusCode`, its first member. -/
def statusCodeOf (json : GoString) : Option Nat :=
  match afterLead (str "\x7b\"statusCode\":") json with
  | none => none
  | some rest =>
    let digits := (rest.dropWhile (fun b => b == 32)).takeWhile (fun b => 48 ≤ b && b ≤ 57)
    if digits.isEmpty then none else some (digits.foldl (fun acc d => 10 * acc + (d - 48)) 0)

/-- A printable ASCII byte that `encoding/json` copies as it is. -/
def plainByte (b : Nat) : Bool :=
  32 ≤ b && b < 128 && b != 34 && b != 92 && b != 60 && b != 62 && b != 38

/-! ## Sample surroundings for the concrete cases -/

/-- A template library for the examples: a file parses unless its path is
`bad.html`, a text parses unless it is `bad`; a template is the list of its
files; executing it yields `ok`, or fails after `par` when the model is
`false`. -/
def sampleEngine : Engine (List GoString) Bool where
  parseFiles := fun _ files =>
    if files.contains (str "bad.html") then .error (str "template: bad.html:1: unexpected EOF")
    else .ok files
  parseText := fun _ text =>
    if text = str "bad" then .error (str "template: template:1: unexpected EOF")
    else .ok [text]
  execute := fun _ data =>
    match data with
    | .val true => (str "ok", none)
    | .ptr true => (str "ok", none)
    | _ => (str "par", some (str "template: nil pointer evaluating"))

/-- A file system for the examples: one PDF file, nothing else. -/
def sampleFiles : FileSystem := fun path =>
  if path = str "docs/report.pdf" then .ok (str "%PDF-1.4")
  else .error (str "open " ++ path ++ str ": no such file or directory")

/-! ## Names used to state the properties -/

/-- Everything after the last `/` of a path, the whole path when it has
none: `p[strings.LastIndex(p, "/")+1:]`. -/
def afterLastSlash (p : GoString) : GoString :=
  sliceFrom p (LastIndexByte p 47 + 1).toNat

/-- The last piece of a path cut at every `/`, as `ParseTemplateSets` names
the base template. -/
def splitLastName (baseTemplate : GoString) : GoString :=
  if (Split 47 baseTemplate).length > 0 then
    (Split 47 baseTemplate).getD ((Split 47 baseTemplate).length - 1) []
  else baseTemplate

/-- The event of parsing one set: the base template, then the set's
elements but the first. -/
def setEvent (baseTemplate : GoString) (set : List GoString) : Event :=
  .parseFiles (splitLastName baseTemplate) ([baseTemplate] ++ set.tail)

/-- The template of one set, built on its own: the base template followed
by the set's elements but the first. -/
def setTemplate {T M : Type} (E : Engine T M) (baseTemplate : GoString)
    (set : List GoString) : Except GoString T :=
  E.parseFiles (splitLastName baseTemplate) ([baseTemplate] ++ set.tail)

/-- The error of the first set, in the order given, that does not parse. -/
def firstParseFailure {T M : Type} (E : Engine T M) (baseTemplate : GoString)
    (sets : List (List GoString)) : Option GoString :=
  sets.findSome? (fun set =>
    match setTemplate E baseTemplate set with
    | .error e => some e
    | .ok _ => none)

/-- The last of the sets whose first element is `key`. -/
def lastSetWithKey (sets : List (List GoString)) (key : GoString) : Option (List GoString) :=
  sets.reverse.find? (fun set => decide (set.head? = some key))

/-- The catalog the sets describe: under each lookup key, the template of
the last set with that key. -/
def catalogOf {T M : Type} (E : Engine T M) (baseTemplate : GoString)
    (sets : List (List GoString)) : Catalog T :=
  fun key => (lastSetWithKey sets key).bind (fun set => (setTemplate E baseTemplate set).toOption)

/-- What makes the loop of `ParseTemplateSets` stop at a set: the set is
empty, so that `set[1:]` panics, or its files do not parse. -/
inductive SetStop where
  | emptySet
  | parseFailure (e : GoString)
deriving DecidableEq

/-- Whether the loop stops at this set, and why. -/
def setStop {T M : Type} (E : Engine T M) (baseTemplate : GoString)
    (set : List GoString) : Option SetStop :=
  match set with
  | [] => some .emptySet
  | _ :: _ =>
    match setTemplate E baseTemplate set with
    | .error e => some (.parseFailure e)
    | .ok _ => none

/-- The first set, in the order given, at which the loop stops. -/
def firstStop {T M : Type} (E : Engine T M) (baseTemplate : GoString)
    (sets : List (List GoString)) : Option SetStop :=
  sets.findSome? (setStop E baseTemplate)

/-- How the loop ends at a stop: a parse failure returns the nil catalog
and the error, an empty set panics at `set[1:]`. -/
def stopOutcome {T : Type} : SetStop → Outcome (Option (Catalog T) × Option GoError)
  | .parseFailure e => .ret (none, some (.parseErr e))
  | .emptySet =>
    .panicked (.runtimeErr (str "runtime error: slice bounds out of range [1:0]"))

/-- The argument at the even position `i` is the string `key`. -/
def keyAt (values : List GoValue) (i : Nat) (key : GoString) : Prop :=
  i % 2 = 0 ∧ values[i]? = some (.string key)

/-- Some argument at an even position is not a string. -/
def badKey (values : List GoValue) : Prop :=
  ∃ i x, i % 2 = 0 ∧ values[i]? = some (GoValue.other x)

/-- The argument `v` follows the last occurrence of `key` at an even
position. -/
def followsLast (values : List GoValue) (key : GoString) (v : GoValue) : Prop :=
  ∃ i, keyAt values i key ∧ values[i + 1]? = some v ∧ ∀ j, i < j → ¬ keyAt values j key

/-! ## Theorems -/

/-- Ten bytes split into the area code, the exchange and the line number. -/
theorem FormatPhone_parts (a b c : GoString)
    (ha : a.length = 3) (hb : b.length = 3) (hc : c.length = 4) :
    FormatPhone (a ++ b ++ c) = str "(" ++ a ++ str ") " ++ b ++ str "-" ++ c := by
  have hlen : (a ++ b ++ c).length = 10 := by simp [ha, hb, hc]
  have h1 : slice (a ++ b ++ c) 0 3 = a := by
    simp [slice, List.take_append_eq_append_take, ha, hb]
  have h2 : slice (a ++ b ++ c) 3 6 = b := by
    simp [slice, List.take_append_eq_append_take, List.drop_append_eq_append_drop, ha, hb, hc]
  have h3 : slice (a ++ b ++ c) 6 10 = c := by
    have hab : (a ++ b).length = 6 := by simp [ha, hb]
    unfold slice
    rw [List.take_of_length_le (le_of_eq hlen), List.drop_left' hab]
  unfold FormatPhone
  rw [if_pos hlen, h1, h2, h3]

/-- C1: a string of length 10 is formatted as
`"(" + n[0:3] + ") " + n[3:6] + "-" + n[6:10]`, so that the result has
14 bytes and `"2125551234"` gives `"(212) 555-1234"`; a string of any
other length is returned unchanged. -/
theorem FormatPhone_spec (n : GoString) :
    (n.length = 10 →
      FormatPhone n
          = str "(" ++ slice n 0 3 ++ str ") " ++ slice n 3 6 ++ str "-" ++ slice n 6 10
        ∧ FormatPhone n
          = [40] ++ n.take 3 ++ [41, 32] ++ (n.drop 3).take 3 ++ [45] ++ n.drop 6
        ∧ (FormatPhone n).length = 14)
    ∧ (n.length ≠ 10 → FormatPhone n = n)
    ∧ FormatPhone (str "2125551234") = str "(212) 555-1234" := by
  refine ⟨fun h => ?_, fun h => ?_, by decide⟩
  · have e1 : FormatPhone n
        = str "(" ++ slice n 0 3 ++ str ") " ++ slice n 3 6 ++ str "-" ++ slice n 6 10 := by
      unfold FormatPhone
      rw [if_pos h]
    have e2 : slice n 3 6 = (n.drop 3).take 3 := by
      simp [slice, List.drop_take]
    have e3 : slice n 6 10 = n.drop 6 := by
      simp [slice, List.take_of_length_le (le_of_eq h)]
    refine ⟨e1, ?_, ?_⟩
    · rw [e1, e2, e3]
      simp [slice, str, utf8Bytes]
    · rw [e1]
      simp [slice, str, utf8Bytes, h]
  · unfold FormatPhone
    rw [if_neg h]

/-- C1 at concrete inputs: a ten-byte number and a three-byte one. -/
theorem FormatPhone_spec_witness :
    FormatPhone (str "2125551234") = str "(212) 555-1234"
      ∧ FormatPhone (str "911") = str "911" :=
  ⟨((FormatPhone_spec (str "2125551234")).1 (by decide)).1.trans (by decide),
   (FormatPhone_spec (str "911")).2.1 (by decide)⟩

/-! ### The status envelopes -/

theorem jsonEscapeByte_plain (b : Nat) (h : plainByte b = true) : jsonEscapeByte b = [b] := by
  simp only [plainByte, Bool.and_eq_true, decide_eq_true_eq, bne_iff_ne, ne_eq] at h
  obtain ⟨⟨⟨⟨⟨⟨h1, h2⟩, h3⟩, h4⟩, h5⟩, h6⟩, h7⟩ := h
  have h8 : ¬ b < 32 := by omega
  have h9 : b ≠ 10 ∧ b ≠ 13 ∧ b ≠ 9 := by omega
  simp [jsonEscapeByte, h3, h4, h5, h6, h7, h8, h9.1, h9.2.1, h9.2.2]

theorem jsonEscape_plain (fuel : Nat) (t : GoString) (hf : t.length ≤ fuel)
    (h : t.all plainByte = true) : jsonEscape fuel t = t := by
  induction t generalizing fuel with
  | nil => cases fuel <;> rfl
  | cons b rest ih =>
    cases fuel with
    | zero => simp at hf
    | succ n =>
      simp only [List.all_cons, Bool.and_eq_true] at h
      have hb : b < 128 := by
        have := h.1
        simp only [plainByte, Bool.and_eq_true, decide_eq_true_eq] at this
        omega
      have hlen : rest.length ≤ n := by simpa using hf
      simp only [jsonEscape, if_pos hb, jsonEscapeByte_plain b h.1, ih n hlen h.2]
      rfl

/-- A string of plain bytes is marshalled as itself between quotes. -/
theorem jsonString_plain (t : GoString) (h : t.all plainByte = true) :
    jsonString t = [34] ++ t ++ [34] := by
  unfold jsonString
  rw [jsonEscape_plain t.length t le_rfl h]

/-- On a connection that takes every byte, `JSONToBrowser` appends exactly
the payload and returns no error. -/
theorem JSONToBrowser_body (w : ResponseWriter) (p : List Nat) (h : w.fault = none) :
    (JSONToBrowser w p).1.body = w.body ++ p ∧ (JSONToBrowser w p).2 = none := by
  simp [JSONToBrowser, ResponseWriter.Write, ResponseWriter.headerSet, ResponseWriter.headerAdd,
    ResponseWriter.WriteHeader, h]
  cases hs : w.status <;> simp [h]

theorem hasField_append (tag pre rest : GoString) :
    hasField tag (pre ++ ([34] ++ tag ++ [34, 58]) ++ rest) = true := by
  unfold hasField
  rw [List.any_eq_true]
  refine ⟨([34] ++ tag ++ [34, 58]) ++ rest, ?_, ?_⟩
  · rw [List.mem_tails]
    exact ⟨pre, by simp⟩
  · simp [List.isPrefixOf_iff_prefix]

theorem ReportRedirectJSON_eq (t : GoString) :
    ReportRedirectJSON t
      = str "\x7b\"statusCode\":1,\"redirect\":" ++ jsonString t ++ str "\x7d" := by
  simp [ReportRedirectJSON, jsonMarshalStruct, JSONField.encode, List.intersperse, str,
    utf8Bytes, itoa, natDigits, Nat.toDigits, Nat.toDigitsCore, Nat.digitChar]

/-- C2, the claim as stated fails: for the target `/dashboard` the payload
of `ReportRedirect` is `{"statusCode":1,"redirect":"/dashboard"}`, not
`{"statusCode":6,"redirectTo":"/dashboard"}`. -/
theorem ReportRedirect_not_status6 :
    (ReportRedirect freshResponse (str "/dashboard")).body
        = str "\x7b\"statusCode\":1,\"redirect\":\"/dashboard\"\x7d"
      ∧ (ReportRedirect freshResponse (str "/dashboard")).body
        ≠ str "\x7b\"statusCode\":6,\"redirectTo\":\"/dashboard\"\x7d"
      ∧ statusCodeOf (ReportRedirectJSON (str "/dashboard")) = some 1
      ∧ hasField (str "redirectTo") (ReportRedirectJSON (str "/dashboard")) = false := by
  decide

/-- C2 (amended): for every redirect target `t`, `ReportRedirect(w, t)`
hands `JSONToBrowser` exactly the envelope `{"statusCode":1,"redirect":t}`,
`t` written as a JSON string: its status code is 1 and its payload member is
`redirect`.  On a connection that takes every byte the response body grows
by exactly that envelope, and for a target of plain bytes the envelope is
`{"statusCode":1,"redirect":"` + t + `"}`. -/
theorem ReportRedirect_envelope (w : ResponseWriter) (t : GoString) :
    ReportRedirect w t
        = (JSONToBrowser w
            (str "\x7b\"statusCode\":1,\"redirect\":" ++ jsonString t ++ str "\x7d")).1
      ∧ statusCodeOf (ReportRedirectJSON t) = some 1
      ∧ hasField (str "redirect") (ReportRedirectJSON t) = true
      ∧ (w.fault = none →
          (ReportRedirect w t).body
            = w.body ++ (str "\x7b\"statusCode\":1,\"redirect\":" ++ jsonString t ++ str "\x7d"))
      ∧ (t.all plainByte = true →
          ReportRedirectJSON t
            = str "\x7b\"statusCode\":1,\"redirect\":\"" ++ t ++ str "\"\x7d") := by
  have e := ReportRedirectJSON_eq t
  refine ⟨?_, ?_, ?_, ?_, ?_⟩
  · unfold ReportRedirect
    rw [e]
  · rw [e]
    simp [statusCodeOf, afterLead, str, utf8Bytes, jsonString]
  · rw [e]
    have := hasField_append (str "redirect") (str "\x7b\"statusCode\":1,") (jsonString t ++ str "\x7d")
    simpa [str, utf8Bytes] using this
  · intro h
    unfold ReportRedirect
    rw [e]
    exact (JSONToBrowser_body w _ h).1
  · intro h
    rw [e, jsonString_plain t h]
    simp [str, utf8Bytes]

/-- C2 (amended) at the target `/dashboard`, on an untouched response. -/
theorem ReportRedirect_envelope_witness :
    (ReportRedirect freshResponse (str "/dashboard")).body
        = str "\x7b\"statusCode\":1,\"redirect\":" ++ jsonString (str "/dashboard") ++ str "\x7d"
      ∧ ReportRedirectJSON (str "/dashboard")
        = str "\x7b\"statusCode\":1,\"redirect\":\"/dashboard\"\x7d" :=
  ⟨(ReportRedirect_envelope freshResponse (str "/dashboard")).2.2.2.1 rfl,
   ((ReportRedirect_envelope freshResponse (str "/dashboard")).2.2.2.2 (by decide)).trans
     (by decide)⟩

/-- C4: with zero template sources `ToString` and `ToHTML` return an error
and the empty string, and `ToBrowserNoMasterNew` returns an error and leaves
the response as it was; none of them has by then built the function map,
parsed a file or executed a template (no library call was made). -/
theorem no_templates_fails_first {T M : Type} (E : Engine T M) (w : ResponseWriter)
    (model : M) (templates : List GoString) (h : templates.length = 0) :
    ((ToString E model templates).events = []
        ∧ (ToString E model templates).outcome
          = .ret ([], some (.errorf (str "no template(s) specified"))))
      ∧ ((ToHTML E model templates).events = []
        ∧ (ToHTML E model templates).outcome
          = .ret ([], some (.errorf (str "no templates passed into ToHTML()"))))
      ∧ ((ToBrowserNoMasterNew E w model templates).events = []
        ∧ (ToBrowserNoMasterNew E w model templates).outcome
          = .ret (w, some (.errorf (str "no templates supplied")))) := by
  refine ⟨?_, ?_, ?_⟩
  · unfold ToString
    rw [if_pos h]
    exact ⟨rfl, rfl⟩
  · unfold ToHTML
    rw [if_pos h]
    exact ⟨rfl, rfl⟩
  · unfold ToBrowserNoMasterNew
    rw [if_pos h]
    exact ⟨rfl, rfl⟩

/-- C4 with the sample library, on an untouched response. -/
theorem no_templates_fails_first_witness :
    (ToString sampleEngine true []).events = []
      ∧ returnedError (ToString sampleEngine true []).outcome
        = some (some (.errorf (str "no template(s) specified")))
      ∧ returnedValue (ToBrowserNoMasterNew sampleEngine freshResponse true []).outcome
        = some freshResponse :=
  ⟨(no_templates_fails_first sampleEngine freshResponse true [] rfl).1.1,
   congrArg returnedError (no_templates_fails_first sampleEngine freshResponse true [] rfl).1.2,
   congrArg returnedValue (no_templates_fails_first sampleEngine freshResponse true [] rfl).2.2.2⟩

/-- A failed `Write` returns the connection's error. -/
theorem Write_error (w : ResponseWriter) (p : List Nat) (e : GoError)
    (h : (w.Write p).2 = some e) : ∃ text, e = .writeErr text := by
  unfold ResponseWriter.Write at h
  cases hf : (w.WriteHeader 200).fault with
  | none => simp [hf] at h
  | some ke =>
    obtain ⟨k, text⟩ := ke
    by_cases hk : p.length ≤ k
    · simp [hf, hk] at h
    · simp [hf, hk] at h
      exact ⟨text, h.symm⟩

theorem bufferWriteTo_error (w : ResponseWriter) (p : List Nat) (e : GoError)
    (h : (bufferWriteTo w p).2 = some e) : ∃ text, e = .writeErr text := by
  unfold bufferWriteTo at h
  by_cases hp : p.length > 0
  · rw [if_pos hp] at h
    exact Write_error w p e h
  · rw [if_neg hp] at h
    simp at h

/-- The error `executeTo` returns is the writer's or the library's, never one
made by `fmt.Errorf`. -/
theorem executeTo_error_not_errorf {T M : Type} (E : Engine T M) (t : T) (w : ResponseWriter)
    (data : Data M) (text : GoString) :
    (executeTo E t w data).2 ≠ some (.errorf text) := by
  unfold executeTo
  cases hr : (bufferWriteTo w (E.execute t data).1).2 with
  | none =>
    simp only [hr]
    cases (E.execute t data).2 <;> simp
  | some e =>
    simp only [hr]
    obtain ⟨t2, rfl⟩ := bufferWriteTo_error w _ e hr
    simp

/-- C5: when `templateIndex` is no key of the catalog, `Template` returns the
error `template <key> not found`, makes no library call and leaves `w` as
it was, whatever else the catalog holds; when the key is there, the result
is that of executing the template filed under it on `w`, and the error
returned, if any, is not the not-found error. -/
theorem Template_lookup {T M : Type} (E : Engine T M) (w : ResponseWriter)
    (templates : Catalog T) (model : M) (templateIndex : GoString) :
    (templates templateIndex = none →
        (Template E w templates model templateIndex).events = []
          ∧ (Template E w templates model templateIndex).outcome
            = .ret (w, some (.errorf (str "template " ++ templateIndex ++ str " not found"))))
      ∧ (∀ t : T, templates templateIndex = some t →
        (Template E w templates model templateIndex).events = [.execute]
          ∧ (Template E w templates model templateIndex).outcome
            = .ret (executeTo E t w (.ptr model))
          ∧ returnedError (Template E w templates model templateIndex).outcome
            ≠ some (some (.errorf (str "template " ++ templateIndex ++ str " not found")))) := by
  refine ⟨fun h => ?_, fun t h => ?_⟩
  · unfold Template
    rw [h]
    exact ⟨rfl, rfl⟩
  · unfold Template
    rw [h]
    refine ⟨rfl, rfl, ?_⟩
    intro hc
    simp only [returnedError, Option.some.injEq] at hc
    exact executeTo_error_not_errorf E t w (.ptr model) _ hc

/-- C5 on a catalog of two keys: a third key is not found and the response
stays untouched; a key of the catalog is executed. -/
theorem Template_lookup_witness :
    returnedError (Template sampleEngine freshResponse
        (Function.update (Function.update Catalog.empty (str "a") (some [str "a.html"]))
          (str "b") (some [str "b.html"])) true (str "c")).outcome
        = some (some (.errorf (str "template c not found")))
      ∧ (Template sampleEngine freshResponse
        (Function.update (Function.update Catalog.empty (str "a") (some [str "a.html"]))
          (str "b") (some [str "b.html"])) true (str "a")).events = [.execute] :=
  ⟨(congrArg returnedError ((Template_lookup sampleEngine freshResponse _ true (str "c")).1
      (by decide)).2).trans (by decide),
   ((Template_lookup sampleEngine freshResponse _ true (str "a")).2 [str "a.html"]
      (by decide)).1⟩

/-! ### Parse failures and execution failures -/

/-- C6, the claim as stated fails: with a source that does not parse,
`ToString` does not return at all, it panics with the parse error (through
`template.Must`); so do `ToBrowser` and `ToHTMLOld`. -/
theorem ToString_parse_failure_panics :
    (ToString sampleEngine true [str "bad.html"]).outcome
        = .panicked (.parseErr (str "template: bad.html:1: unexpected EOF"))
      ∧ returnedError (ToString sampleEngine true [str "bad.html"]).outcome = none
      ∧ returnedError (ToBrowser sampleEngine freshResponse true [str "bad.html"]).outcome = none
      ∧ returnedError (ToHTMLOld sampleEngine (str "bad.html") true).outcome = none := by
  decide

/-- C6 (amended): when parsing the template sources fails with `e`, `ToHTML`
and `ToStringFromString` return the parse error as their error value, with
an empty result; `ToBrowser`, `ToBrowserNoMaster`, `ToBrowserNoMasterNew`,
`ToString` and `ToHTMLOld` panic with the parse error (`template.Must`)
and return nothing. -/
theorem parse_failure_propagation {T M : Type} (E : Engine T M) (w : ResponseWriter)
    (model : M) (templates : List GoString) (instanceTemplate html e : GoString) :
    (templates.length ≠ 0 →
        E.parseFiles (TrimSpace (afterLastSlash (templates.getD 0 []))) templates = .error e →
        (ToHTML E model templates).outcome = .ret ([], some (.parseErr e)))
      ∧ (E.parseText (str "template") html = .error e →
        (ToStringFromString E html model).outcome = .ret ([], some (.parseErr e)))
      ∧ (E.parseFiles (str "master.html") ([str "views/master.html"] ++ templates) = .error e →
        (ToBrowser E w model templates).outcome = .panicked (.parseErr e))
      ∧ (E.parseFiles (afterLastSlash instanceTemplate) [instanceTemplate] = .error e →
        (ToBrowserNoMaster E w instanceTemplate model).outcome = .panicked (.parseErr e)
          ∧ (ToHTMLOld E instanceTemplate model).outcome = .panicked (.parseErr e))
      ∧ (templates.length ≠ 0 →
        E.parseFiles (afterLastSlash (templates.getD 0 [])) templates = .error e →
        (ToBrowserNoMasterNew E w model templates).outcome = .panicked (.parseErr e)
          ∧ (ToString E model templates).outcome = .panicked (.parseErr e)) := by
  refine ⟨fun hl h => ?_, fun h => ?_, fun h => ?_, fun h => ⟨?_, ?_⟩, fun hl h => ⟨?_, ?_⟩⟩
  · unfold ToHTML
    unfold afterLastSlash at h
    rw [if_neg hl]
    simp only [h]
  · unfold ToStringFromString
    simp only [h]
  · unfold ToBrowser
    simp only [h]
  · unfold ToBrowserNoMaster
    unfold afterLastSlash at h
    simp only [h]
  · unfold ToHTMLOld
    unfold afterLastSlash at h
    simp only [h]
  · unfold ToBrowserNoMasterNew
    unfold afterLastSlash at h
    rw [if_neg hl]
    simp only [h]
  · unfold ToString
    unfold afterLastSlash at h
    rw [if_neg hl]
    simp only [h]

/-- C6 (amended) with the sample library and a source that does not parse:
`ToHTML` returns the parse error, `ToString` panics with it. -/
theorem parse_failure_propagation_witness :
    (ToHTML sampleEngine true [str "bad.html"]).outcome
        = .ret ([], some (.parseErr (str "template: bad.html:1: unexpected EOF")))
      ∧ (ToString sampleEngine true [str "bad.html"]).outcome
        = .panicked (.parseErr (str "template: bad.html:1: unexpected EOF")) :=
  ⟨(parse_failure_propagation sampleEngine freshResponse true [str "bad.html"] [] []
      (str "template: bad.html:1: unexpected EOF")).1 (by decide) rfl,
   ((parse_failure_propagation sampleEngine freshResponse true [str "bad.html"] [] []
      (str "template: bad.html:1: unexpected EOF")).2.2.2.2 (by decide) rfl).2⟩

/-- C7, the claim as stated fails: when the execution fails,
`ToBrowserNoMasterNew` returns a nil error; the error text went to the
response through `http.Error`, after the output written so far. -/
theorem ToBrowserNoMasterNew_swallows :
    returnedError (ToBrowserNoMasterNew sampleEngine freshResponse false
        [str "views/a.html"]).outcome = some none
      ∧ (returnedValue (ToBrowserNoMasterNew sampleEngine freshResponse false
          [str "views/a.html"]).outcome).map ResponseWriter.body
        = some (str "partemplate: nil pointer evaluating\n")
      ∧ returnedError (ToBrowserNoMaster sampleEngine freshResponse (str "views/a.html")
          false).outcome = some (some (.execErr (str "template: nil pointer evaluating"))) := by
  decide

/-- C7 (amended): when the sources parse to `t` and executing `t` on the
response fails with `err`, `ToBrowser` and `ToBrowserNoMaster` return `err`
to the caller; `ToBrowserNoMasterNew` instead answers the client through
`http.Error` (status 500 and the error text) and returns a nil error. -/
theorem execution_failure_propagation {T M : Type} (E : Engine T M) (w : ResponseWriter)
    (model : M) (templates : List GoString) (instanceTemplate : GoString) (t : T)
    (err : GoError) (hexec : (executeTo E t w (.val model)).2 = some err) :
    (E.parseFiles (str "master.html") ([str "views/master.html"] ++ templates) = .ok t →
        (ToBrowser E w model templates).outcome
          = .ret ((executeTo E t w (.val model)).1, some err))
      ∧ (E.parseFiles (afterLastSlash instanceTemplate) [instanceTemplate] = .ok t →
        (ToBrowserNoMaster E w instanceTemplate model).outcome
          = .ret ((executeTo E t w (.val model)).1, some err))
      ∧ (templates.length ≠ 0 →
        E.parseFiles (afterLastSlash (templates.getD 0 [])) templates = .ok t →
        (ToBrowserNoMasterNew E w model templates).outcome
          = .ret (httpError (executeTo E t w (.val model)).1 err.Error 500, none)) := by
  refine ⟨fun h => ?_, fun h => ?_, fun hl h => ?_⟩
  · unfold ToBrowser
    simp only [h, hexec]
  · unfold ToBrowserNoMaster
    unfold afterLastSlash at h
    simp only [h, hexec]
  · unfold ToBrowserNoMasterNew
    unfold afterLastSlash at h
    rw [if_neg hl]
    simp only [h, hexec]

/-- C7 (amended) with the sample library and a model on which the execution
fails: `ToBrowser` returns the execution error. -/
theorem execution_failure_propagation_witness :
    returnedError (ToBrowser sampleEngine freshResponse false [str "views/a.html"]).outcome
      = some (some (.execErr (str "template: nil pointer evaluating"))) :=
  congrArg returnedError
    ((execution_failure_propagation sampleEngine freshResponse false [str "views/a.html"] []
      [str "views/master.html", str "views/a.html"]
      (.execErr (str "template: nil pointer evaluating")) (by decide)).1 rfl)

/-! ### Streaming a file -/

/-- What `bufferWriteTo` does to a response: the headers stay, the body
grows by a leading part of the bytes, by all of them when no error comes
back, and no error comes back on a connection that takes every byte. -/
theorem bufferWriteTo_effect (w : ResponseWriter) (p : List Nat) :
    (bufferWriteTo w p).1.header = w.header
      ∧ (∃ k, (bufferWriteTo w p).1.body = w.body ++ p.take k)
      ∧ ((bufferWriteTo w p).2 = none → (bufferWriteTo w p).1.body = w.body ++ p)
      ∧ (w.fault = none → (bufferWriteTo w p).2 = none) := by
  unfold bufferWriteTo
  by_cases hp : p.length > 0
  · rw [if_pos hp]
    have hh : (w.WriteHeader 200).header = w.header
        ∧ (w.WriteHeader 200).body = w.body ∧ (w.WriteHeader 200).fault = w.fault := by
      unfold ResponseWriter.WriteHeader
      cases w.status <;> exact ⟨rfl, rfl, rfl⟩
    unfold ResponseWriter.Write
    cases hf : (w.WriteHeader 200).fault with
    | none =>
      have hw : w.fault = none := by rw [← hh.2.2, hf]
      refine ⟨?_, ⟨p.length, ?_⟩, fun _ => ?_, fun _ => ?_⟩ <;> simp [hf, hh.1, hh.2.1]
    | some ke =>
      obtain ⟨k, text⟩ := ke
      have hw : w.fault ≠ none := by
        rw [← hh.2.2, hf]
        simp
      by_cases hk : p.length ≤ k
      · refine ⟨?_, ⟨p.length, ?_⟩, fun _ => ?_, fun h => absurd h hw⟩ <;>
          simp [hf, hk, hh.1, hh.2.1]
      · refine ⟨?_, ⟨k, ?_⟩, fun h => ?_, fun h => absurd h hw⟩
        · simp [hf, hk, hh.1, hh.2.1]
        · simp [hf, hk, hh.1, hh.2.1]
        · simp [hf, hk] at h
  · rw [if_neg hp]
    have : p = [] := by
      cases p with
      | nil => rfl
      | cons a l => simp at hp
    subst this
    exact ⟨rfl, ⟨0, by simp⟩, fun _ => by simp, fun _ => rfl⟩

/-- C8: when the file cannot be read, `PDFToBrowser` returns the read error
and the response is as it was (no header set, no byte written, no status
sent); the read is the only thing done.  When the file is read, the
headers `Content-Type: application/pdf` and `Content-Disposition:
inline;filename=<name>` are set, what is written is a leading part of the
file's bytes, the whole of them when no error is returned, and no error is
returned on a connection that takes every byte. -/
theorem PDFToBrowser_read_then_write (fs : FileSystem) (w : ResponseWriter) (path : GoString) :
    (∀ e, fs path = .error e →
        (PDFToBrowser fs w path).events = [.readFile path]
          ∧ (PDFToBrowser fs w path).outcome = .ret (w, some (.readErr e)))
      ∧ (∀ bytes, fs path = .ok bytes →
        (PDFToBrowser fs w path).events = [.readFile path]
          ∧ ∃ w1 err, (PDFToBrowser fs w path).outcome = .ret (w1, err)
            ∧ w1.header (str "Content-Type") = [str "application/pdf"]
            ∧ w1.header (str "Content-Disposition")
              = [str "inline;filename=" ++ afterLastSlash path]
            ∧ (∃ k, w1.body = w.body ++ bytes.take k)
            ∧ (err = none → w1.body = w.body ++ bytes)
            ∧ (w.fault = none → err = none ∧ w1.body = w.body ++ bytes)) := by
  refine ⟨fun e h => ?_, fun bytes h => ?_⟩
  · unfold PDFToBrowser
    simp only [h]
    exact ⟨trivial, trivial⟩
  · have k1 : CanonicalMIMEHeaderKey (str "Content-type") = str "Content-Type" := by decide
    have k2 : CanonicalMIMEHeaderKey (str "Content-Disposition") = str "Content-Disposition" := by
      decide
    have k3 : CanonicalMIMEHeaderKey (str "Access-Control-Allow-Credentials")
        = str "Access-Control-Allow-Credentials" := by decide
    have n1 : str "Content-Type" ≠ str "Content-Disposition" := by decide
    have n2 : str "Content-Type" ≠ str "Access-Control-Allow-Credentials" := by decide
    have n3 : str "Content-Disposition" ≠ str "Access-Control-Allow-Credentials" := by decide
    obtain ⟨w3, hCT, hCD, hbody, hfault, hev, hout⟩ : ∃ w3 : ResponseWriter,
        w3.header (str "Content-Type") = [str "application/pdf"]
          ∧ w3.header (str "Content-Disposition")
            = [str "inline;filename=" ++ afterLastSlash path]
          ∧ w3.body = w.body ∧ w3.fault = w.fault
          ∧ (PDFToBrowser fs w path).events = [.readFile path]
          ∧ (PDFToBrowser fs w path).outcome = .ret (bufferWriteTo w3 bytes) := by
      refine ⟨((w.headerSet (str "Content-type") (str "application/pdf")).headerSet
        (str "Content-Disposition") (str "inline;filename=" ++ afterLastSlash path)).headerAdd
        (str "Access-Control-Allow-Credentials") (str "true"), ?_, ?_, rfl, rfl, ?_, ?_⟩
      · simp only [ResponseWriter.headerAdd, ResponseWriter.headerSet, k1, k2, k3]
        rw [Function.update_noteq n2, Function.update_noteq n1, Function.update_same]
      · simp only [ResponseWriter.headerAdd, ResponseWriter.headerSet, k1, k2, k3]
        rw [Function.update_noteq n3, Function.update_same]
      · unfold PDFToBrowser
        simp only [h]
      · unfold PDFToBrowser afterLastSlash
        simp only [h]
    have eff := bufferWriteTo_effect w3 bytes
    rw [hbody, hfault] at eff
    refine ⟨hev, (bufferWriteTo w3 bytes).1, (bufferWriteTo w3 bytes).2, hout, ?_, ?_, eff.2.1,
      eff.2.2.1, fun hw => ⟨eff.2.2.2 hw, eff.2.2.1 (eff.2.2.2 hw)⟩⟩
    · rw [eff.1, hCT]
    · rw [eff.1, hCD]

/-- C8 on the sample files: a missing file leaves the response untouched,
the file that is there arrives whole. -/
theorem PDFToBrowser_read_then_write_witness :
    (PDFToBrowser sampleFiles freshResponse (str "docs/none.pdf")).outcome
        = .ret (freshResponse,
            some (.readErr (str "open docs/none.pdf: no such file or directory")))
      ∧ (returnedValue (PDFToBrowser sampleFiles freshResponse
          (str "docs/report.pdf")).outcome).map ResponseWriter.body = some (str "%PDF-1.4") :=
  ⟨((PDFToBrowser_read_then_write sampleFiles freshResponse (str "docs/none.pdf")).1 _ rfl).2,
   by
    obtain ⟨w1, err, ho, -, -, -, -, hb⟩ :=
      ((PDFToBrowser_read_then_write sampleFiles freshResponse (str "docs/report.pdf")).2
        (str "%PDF-1.4") rfl).2
    rw [ho]
    simp only [returnedValue, Option.map_some', (hb rfl).2]
    rfl⟩

/-! ### Building the catalog -/

theorem firstParseFailure_cons_error {T M : Type} (E : Engine T M) (base : GoString)
    (set : List GoString) (rest : List (List GoString)) (e : GoString)
    (h : setTemplate E base set = .error e) :
    firstParseFailure E base (set :: rest) = some e := by
  simp [firstParseFailure, List.findSome?_cons, h]

theorem firstParseFailure_cons_ok {T M : Type} (E : Engine T M) (base : GoString)
    (set : List GoString) (rest : List (List GoString)) (t : T)
    (h : setTemplate E base set = .ok t) :
    firstParseFailure E base (set :: rest) = firstParseFailure E base rest := by
  simp [firstParseFailure, List.findSome?_cons, h]

/-- Without a failure every set parses. -/
theorem all_parse_of_no_failure {T M : Type} (E : Engine T M) (base : GoString)
    (sets : List (List GoString)) (h : firstParseFailure E base sets = none) :
    ∀ set ∈ sets, ∃ t, setTemplate E base set = .ok t := by
  induction sets with
  | nil => intro set hs; simp at hs
  | cons s rest ih =>
    intro set hs
    cases hp : setTemplate E base s with
    | error e =>
      rw [firstParseFailure_cons_error E base s rest e hp] at h
      simp at h
    | ok t =>
      rw [firstParseFailure_cons_ok E base s rest t hp] at h
      rcases List.mem_cons.mp hs with rfl | hr
      · exact ⟨t, hp⟩
      · exact ih h set hr

/-- The catalog of `s :: rest`, from that of `rest`. -/
theorem catalogOf_cons {T M : Type} (E : Engine T M) (base : GoString)
    (s : List GoString) (rest : List (List GoString))
    (hall : ∀ set ∈ rest, ∃ t, setTemplate E base set = .ok t) (key : GoString) :
    catalogOf E base (s :: rest) key
      = match catalogOf E base rest key with
        | some t => some t
        | none => if s.head? = some key then (setTemplate E base s).toOption else none := by
  unfold catalogOf lastSetWithKey
  rw [List.reverse_cons, List.find?_append]
  cases hf : rest.reverse.find? (fun set => decide (set.head? = some key)) with
  | some s1 =>
    have hm : s1 ∈ rest := List.mem_reverse.mp (List.mem_of_find?_eq_some hf)
    obtain ⟨t, ht⟩ := hall s1 hm
    simp [ht, Except.toOption]
  | none =>
    by_cases hk : s.head? = some key
    · simp [hk]
    · simp [hk]

/-- The loop fails with the first parse failure, whatever it has gathered. -/
theorem parseSetsLoop_failure {T M : Type} (E : Engine T M) (base : GoString)
    (sets : List (List GoString)) (hne : ∀ set ∈ sets, set ≠ []) (e : GoString)
    (hf : firstParseFailure E base sets = some e) (acc : Catalog T) (events : List Event) :
    (parseSetsLoop E base (splitLastName base) sets acc events).outcome
      = .ret (none, some (.parseErr e)) := by
  induction sets generalizing acc events with
  | nil => simp [firstParseFailure] at hf
  | cons s rest ih =>
    cases s with
    | nil => exact absurd rfl (hne [] (List.mem_cons_self _ _))
    | cons k frags =>
      have hne2 : ∀ set ∈ rest, set ≠ [] := fun set hs => hne set (List.mem_cons_of_mem _ hs)
      cases hp : setTemplate E base (k :: frags) with
      | error e1 =>
        rw [firstParseFailure_cons_error E base _ rest e1 hp] at hf
        have he : e1 = e := by simpa using hf
        have hp2 : E.parseFiles (splitLastName base) ([base] ++ frags) = .error e1 := hp
        simp only [parseSetsLoop, hp2, he]
      | ok t =>
        rw [firstParseFailure_cons_ok E base _ rest t hp] at hf
        have hp2 : E.parseFiles (splitLastName base) ([base] ++ frags) = .ok t := hp
        simp only [parseSetsLoop, hp2]
        exact ih hne2 hf _ _

/-- Without a failure the loop goes through every set, and ends with the
catalog of the sets laid over the map it started from. -/
theorem parseSetsLoop_success {T M : Type} (E : Engine T M) (base : GoString)
    (sets : List (List GoString)) (hne : ∀ set ∈ sets, set ≠ [])
    (hf : firstParseFailure E base sets = none) (acc : Catalog T) (events : List Event) :
    (parseSetsLoop E base (splitLastName base) sets acc events).events
        = events ++ sets.map (setEvent base)
      ∧ (parseSetsLoop E base (splitLastName base) sets acc events).outcome
        = .ret (some (fun key =>
            match catalogOf E base sets key with
            | some t => some t
            | none => acc key), none) := by
  induction sets generalizing acc events with
  | nil =>
    refine ⟨by simp [parseSetsLoop], ?_⟩
    simp only [parseSetsLoop]
    rfl
  | cons s rest ih =>
    cases s with
    | nil => exact absurd rfl (hne [] (List.mem_cons_self _ _))
    | cons k frags =>
      have hne2 : ∀ set ∈ rest, set ≠ [] := fun set hs => hne set (List.mem_cons_of_mem _ hs)
      cases hp : setTemplate E base (k :: frags) with
      | error e1 =>
        rw [firstParseFailure_cons_error E base _ rest e1 hp] at hf
        simp at hf
      | ok t =>
        rw [firstParseFailure_cons_ok E base _ rest t hp] at hf
        have hp2 : E.parseFiles (splitLastName base) ([base] ++ frags) = .ok t := hp
        have hall := all_parse_of_no_failure E base rest hf
        obtain ⟨hev, hout⟩ := ih hne2 hf (Function.update acc k (some t))
          (events ++ [.parseFiles (splitLastName base) ([base] ++ frags)])
        simp only [parseSetsLoop, hp2]
        refine ⟨?_, ?_⟩
        · rw [hev]
          simp [setEvent]
        · rw [hout]
          congr 3
          funext key
          rw [catalogOf_cons E base (k :: frags) rest hall key]
          cases hc : catalogOf E base rest key with
          | some t1 => rfl
          | none =>
            by_cases hk : k = key
            · subst hk
              simp [hp, Except.toOption]
            · have hk2 : key ≠ k := fun h => hk h.symm
              simp [hk, Function.update_noteq hk2]

/-- For sets that each have a lookup key, `ParseTemplateSets` returns a
complete catalog or none.  If a set fails to parse, it returns the nil
catalog with the error of the first such set.  If every set parses, it
returns no error and the catalog whose keys are exactly the first elements
of the sets, each bound to the template built for the last set with that
key from the base template followed by that set's other elements; one parse
call is made per set, each on a fresh template named after the base
template's last path piece. -/
theorem ParseTemplateSets_of_keyed_sets {T M : Type} (E : Engine T M)
    (baseTemplate : GoString) (sets : List (List GoString))
    (hne : ∀ set ∈ sets, set ≠ []) :
    (∀ e, firstParseFailure E baseTemplate sets = some e →
        (ParseTemplateSets E baseTemplate sets).outcome = .ret (none, some (.parseErr e)))
      ∧ (firstParseFailure E baseTemplate sets = none →
        (ParseTemplateSets E baseTemplate sets).outcome
            = .ret (some (catalogOf E baseTemplate sets), none)
          ∧ (ParseTemplateSets E baseTemplate sets).events
            = .getFuncMap :: sets.map (fun set =>
                Event.parseFiles (splitLastName baseTemplate) ([baseTemplate] ++ set.tail))
          ∧ (∀ key, (catalogOf E baseTemplate sets key).isSome = true
              ↔ key ∈ sets.map (fun set => set.headD []))
          ∧ (∀ key t, catalogOf E baseTemplate sets key = some t →
              ∃ set, lastSetWithKey sets key = some set ∧ set ∈ sets ∧ set.head? = some key
                ∧ E.parseFiles (splitLastName baseTemplate) ([baseTemplate] ++ set.tail)
                  = .ok t)) := by
  have hdef : ParseTemplateSets E baseTemplate sets
      = parseSetsLoop E baseTemplate (splitLastName baseTemplate) sets Catalog.empty
          [.getFuncMap] := rfl
  refine ⟨fun e hf => ?_, fun hf => ⟨?_, ?_, ?_, ?_⟩⟩
  · rw [hdef]
    exact parseSetsLoop_failure E baseTemplate sets hne e hf _ _
  · rw [hdef, (parseSetsLoop_success E baseTemplate sets hne hf _ _).2]
    congr 3
    funext key
    cases catalogOf E baseTemplate sets key <;> rfl
  · rw [hdef, (parseSetsLoop_success E baseTemplate sets hne hf _ _).1]
    rfl
  · intro key
    have hall := all_parse_of_no_failure E baseTemplate sets hf
    unfold catalogOf lastSetWithKey
    constructor
    · intro h
      cases hfind : sets.reverse.find? (fun set => decide (set.head? = some key)) with
      | none => simp [hfind] at h
      | some s =>
        have hm : s ∈ sets := List.mem_reverse.mp (List.mem_of_find?_eq_some hfind)
        have hp := List.find?_some hfind
        simp only [decide_eq_true_eq] at hp
        refine List.mem_map.mpr ⟨s, hm, ?_⟩
        cases s with
        | nil => simp at hp
        | cons a l =>
          simp only [List.head?_cons, Option.some.injEq] at hp
          simp [hp]
    · intro h
      obtain ⟨s, hm, hk⟩ := List.mem_map.mp h
      have hs : s.head? = some key := by
        cases s with
        | nil => exact absurd rfl (hne [] hm)
        | cons a l =>
          simp only [List.headD_cons] at hk
          simp [hk]
      cases hfind : sets.reverse.find? (fun set => decide (set.head? = some key)) with
      | none =>
        rw [List.find?_eq_none] at hfind
        have := hfind s (List.mem_reverse.mpr hm)
        simp [hs] at this
      | some s1 =>
        have hm1 : s1 ∈ sets := List.mem_reverse.mp (List.mem_of_find?_eq_some hfind)
        obtain ⟨t, ht⟩ := hall s1 hm1
        simp [ht, Except.toOption]
  · intro key t h
    unfold catalogOf at h
    cases hfind : lastSetWithKey sets key with
    | none => simp [hfind] at h
    | some s =>
      have hm : s ∈ sets := List.mem_reverse.mp (List.mem_of_find?_eq_some hfind)
      have hp := List.find?_some hfind
      simp only [decide_eq_true_eq] at hp
      refine ⟨s, rfl, hm, hp, ?_⟩
      rw [hfind] at h
      simp only [Option.some_bind] at h
      cases hst : setTemplate E baseTemplate s with
      | error e => simp [hst, Except.toOption] at h
      | ok t1 =>
        simp only [hst, Except.toOption, Option.some.injEq] at h
        rw [← h]
        exact hst

theorem firstStop_cons_none {T M : Type} (E : Engine T M) (base : GoString)
    (set : List GoString) (rest : List (List GoString)) (h : setStop E base set = none) :
    firstStop E base (set :: rest) = firstStop E base rest := by
  simp [firstStop, List.findSome?_cons, h]

theorem firstStop_cons_some {T M : Type} (E : Engine T M) (base : GoString)
    (set : List GoString) (rest : List (List GoString)) (stop : SetStop)
    (h : setStop E base set = some stop) :
    firstStop E base (set :: rest) = some stop := by
  simp [firstStop, List.findSome?_cons, h]

/-- The loop stops at a set exactly when the set is empty or does not
parse; otherwise the set is `key :: fragments` and its template is there. -/
theorem setStop_cases {T M : Type} (E : Engine T M) (base : GoString) (set : List GoString) :
    (set = [] ∧ setStop E base set = some .emptySet)
      ∨ (∃ key fragments e, set = key :: fragments
          ∧ E.parseFiles (splitLastName base) ([base] ++ fragments) = .error e
          ∧ setStop E base set = some (.parseFailure e))
      ∨ (∃ key fragments t, set = key :: fragments
          ∧ E.parseFiles (splitLastName base) ([base] ++ fragments) = .ok t
          ∧ setStop E base set = none) := by
  cases set with
  | nil => exact Or.inl ⟨rfl, rfl⟩
  | cons key fragments =>
    cases hp : E.parseFiles (splitLastName base) ([base] ++ fragments) with
    | error e =>
      refine Or.inr (Or.inl ⟨key, fragments, e, rfl, hp, ?_⟩)
      have hs : setTemplate E base (key :: fragments) = .error e := hp
      simp only [setStop, hs]
    | ok t =>
      refine Or.inr (Or.inr ⟨key, fragments, t, rfl, hp, ?_⟩)
      have hs : setTemplate E base (key :: fragments) = .ok t := hp
      simp only [setStop, hs]

/-- The loop ends the way its first stop says, whatever it has gathered:
a parse failure returns the nil catalog and the error, an empty set
panics. -/
theorem parseSetsLoop_stop {T M : Type} (E : Engine T M) (base : GoString)
    (sets : List (List GoString)) (stop : SetStop) (hs : firstStop E base sets = some stop)
    (acc : Catalog T) (events : List Event) :
    (parseSetsLoop E base (splitLastName base) sets acc events).outcome = stopOutcome stop := by
  induction sets generalizing acc events with
  | nil => simp [firstStop] at hs
  | cons s rest ih =>
    rcases setStop_cases E base s with ⟨rfl, h1⟩ | ⟨key, fragments, e, rfl, hp, h1⟩
        | ⟨key, fragments, t, rfl, hp, h1⟩
    · rw [firstStop_cons_some E base _ rest _ h1] at hs
      have : stop = .emptySet := by simpa using hs.symm
      subst this
      simp only [parseSetsLoop, stopOutcome]
    · rw [firstStop_cons_some E base _ rest _ h1] at hs
      have : stop = .parseFailure e := by simpa using hs.symm
      subst this
      simp only [parseSetsLoop, hp, stopOutcome]
    · rw [firstStop_cons_none E base _ rest h1] at hs
      simp only [parseSetsLoop, hp]
      exact ih hs _ _

/-- Without a stop every set has a lookup key and parses. -/
theorem firstStop_none {T M : Type} (E : Engine T M) (base : GoString)
    (sets : List (List GoString)) (hs : firstStop E base sets = none) :
    (∀ set ∈ sets, set ≠ []) ∧ firstParseFailure E base sets = none := by
  induction sets with
  | nil => exact ⟨fun set h => by simp at h, rfl⟩
  | cons s rest ih =>
    rcases setStop_cases E base s with ⟨rfl, h1⟩ | ⟨key, fragments, e, rfl, hp, h1⟩
        | ⟨key, fragments, t, rfl, hp, h1⟩
    · rw [firstStop_cons_some E base _ rest _ h1] at hs
      simp at hs
    · rw [firstStop_cons_some E base _ rest _ h1] at hs
      simp at hs
    · rw [firstStop_cons_none E base _ rest h1] at hs
      obtain ⟨hne, hf⟩ := ih hs
      refine ⟨fun set hm => ?_, ?_⟩
      · rcases List.mem_cons.mp hm with rfl | hr
        · simp
        · exact hne set hr
      · rw [firstParseFailure_cons_ok E base (key :: fragments) rest t hp]
        exact hf

/-- For sets that each have a lookup key, the first stop is the first
parse failure. -/
theorem firstStop_of_keyed_sets {T M : Type} (E : Engine T M) (base : GoString)
    (sets : List (List GoString)) (hne : ∀ set ∈ sets, set ≠ []) :
    firstStop E base sets = (firstParseFailure E base sets).map SetStop.parseFailure := by
  induction sets with
  | nil => rfl
  | cons s rest ih =>
    have hne2 : ∀ set ∈ rest, set ≠ [] := fun set hm => hne set (List.mem_cons_of_mem _ hm)
    rcases setStop_cases E base s with ⟨rfl, -⟩ | ⟨key, fragments, e, rfl, hp, h1⟩
        | ⟨key, fragments, t, rfl, hp, h1⟩
    · exact absurd rfl (hne [] (List.mem_cons_self _ _))
    · rw [firstStop_cons_some E base _ rest _ h1,
        firstParseFailure_cons_error E base (key :: fragments) rest e hp]
      rfl
    · rw [firstStop_cons_none E base _ rest h1,
        firstParseFailure_cons_ok E base (key :: fragments) rest t hp]
      exact ih hne2

/-- C9, the claim as stated fails: on the one empty set `[[]]` nothing
fails to parse, yet `ParseTemplateSets` returns neither a catalog nor an
error, it panics at `set[1:]`; and on an empty set followed by a set that
does not parse, it panics too, where the claim has it return the nil catalog
with that set's error. -/
theorem ParseTemplateSets_empty_set_panics :
    (ParseTemplateSets sampleEngine (str "views/master.html") [[]]).outcome
        = .panicked (.runtimeErr (str "runtime error: slice bounds out of range [1:0]"))
      ∧ firstParseFailure sampleEngine (str "views/master.html") [[]] = none
      ∧ returnedValue (ParseTemplateSets sampleEngine (str "views/master.html") [[]]).outcome
          = none
      ∧ firstParseFailure sampleEngine (str "views/master.html") [[], [str "b", str "bad.html"]]
          = some (str "template: bad.html:1: unexpected EOF")
      ∧ returnedError (ParseTemplateSets sampleEngine (str "views/master.html")
          [[], [str "b", str "bad.html"]]).outcome = none :=
  ⟨rfl, by decide, rfl, by decide, by decide⟩

/-- C9 (amended): what `ParseTemplateSets` does is settled by the first set,
in the order given, that is empty or fails to parse.  If that set fails to
parse, the nil catalog is returned with its error, no partial catalog.  If
it is empty, the call panics at `set[1:]`.  If there is none, so that every
set has a lookup key and parses, the call returns no error and the catalog
whose keys are exactly the first elements of the sets, each bound to the
template built for the last set with that key from the base template
followed by that set's other elements, with one parse call per set on a
fresh template.  For sets that each have a lookup key the first stop is the
first parse failure: the call returns a complete catalog or none. -/
theorem ParseTemplateSets_outcome {T M : Type} (E : Engine T M)
    (baseTemplate : GoString) (sets : List (List GoString)) :
    (∀ e, firstStop E baseTemplate sets = some (.parseFailure e) →
        (ParseTemplateSets E baseTemplate sets).outcome = .ret (none, some (.parseErr e)))
      ∧ (firstStop E baseTemplate sets = some .emptySet →
        (ParseTemplateSets E baseTemplate sets).outcome
          = .panicked (.runtimeErr (str "runtime error: slice bounds out of range [1:0]")))
      ∧ (firstStop E baseTemplate sets = none →
        (ParseTemplateSets E baseTemplate sets).outcome
            = .ret (some (catalogOf E baseTemplate sets), none)
          ∧ (ParseTemplateSets E baseTemplate sets).events
            = .getFuncMap :: sets.map (fun set =>
                Event.parseFiles (splitLastName baseTemplate) ([baseTemplate] ++ set.tail))
          ∧ (∀ key, (catalogOf E baseTemplate sets key).isSome = true
              ↔ key ∈ sets.map (fun set => set.headD []))
          ∧ (∀ key t, catalogOf E baseTemplate sets key = some t →
              ∃ set, lastSetWithKey sets key = some set ∧ set ∈ sets ∧ set.head? = some key
                ∧ E.parseFiles (splitLastName baseTemplate) ([baseTemplate] ++ set.tail)
                  = .ok t))
      ∧ ((∀ set ∈ sets, set ≠ []) →
        firstStop E baseTemplate sets
            = (firstParseFailure E baseTemplate sets).map SetStop.parseFailure
          ∧ (∀ e, firstParseFailure E baseTemplate sets = some e →
            (ParseTemplateSets E baseTemplate sets).outcome = .ret (none, some (.parseErr e)))
          ∧ (firstParseFailure E baseTemplate sets = none →
            (ParseTemplateSets E baseTemplate sets).outcome
              = .ret (some (catalogOf E baseTemplate sets), none))) := by
  have hdef : ParseTemplateSets E baseTemplate sets
      = parseSetsLoop E baseTemplate (splitLastName baseTemplate) sets Catalog.empty
          [.getFuncMap] := rfl
  refine ⟨fun e hs => ?_, fun hs => ?_, fun hs => ?_, fun hne => ⟨?_, ?_, ?_⟩⟩
  · rw [hdef]
    exact parseSetsLoop_stop E baseTemplate sets _ hs _ _
  · rw [hdef]
    exact parseSetsLoop_stop E baseTemplate sets _ hs _ _
  · obtain ⟨hne, hf⟩ := firstStop_none E baseTemplate sets hs
    exact (ParseTemplateSets_of_keyed_sets E baseTemplate sets hne).2 hf
  · exact firstStop_of_keyed_sets E baseTemplate sets hne
  · exact (ParseTemplateSets_of_keyed_sets E baseTemplate sets hne).1
  · intro hf
    exact ((ParseTemplateSets_of_keyed_sets E baseTemplate sets hne).2 hf).1

/-- C9 (amended) with the sample library: three sets of which the second
does not parse give no catalog and that set's error; two sets that parse
give a catalog with exactly their two keys; a set without a key after one
that parses gives a panic. -/
theorem ParseTemplateSets_outcome_witness :
    (ParseTemplateSets sampleEngine (str "views/master.html")
        [[str "a", str "views/a.html"], [str "b", str "bad.html"],
          [str "c", str "views/c.html"]]).outcome
        = .ret (none, some (.parseErr (str "template: bad.html:1: unexpected EOF")))
      ∧ (∃ catalog, (ParseTemplateSets sampleEngine (str "views/master.html")
          [[str "a", str "views/a.html"], [str "b", str "views/b.html"]]).outcome
          = .ret (some catalog, none)
        ∧ catalog (str "a") = some [str "views/master.html", str "views/a.html"]
        ∧ catalog (str "b") = some [str "views/master.html", str "views/b.html"]
        ∧ catalog (str "views/a.html") = none)
      ∧ (ParseTemplateSets sampleEngine (str "views/master.html")
          [[str "a", str "views/a.html"], []]).outcome
        = .panicked (.runtimeErr (str "runtime error: slice bounds out of range [1:0]")) :=
  ⟨(ParseTemplateSets_outcome sampleEngine (str "views/master.html")
      [[str "a", str "views/a.html"], [str "b", str "bad.html"],
        [str "c", str "views/c.html"]]).1 _ (by decide),
   ⟨_, ((ParseTemplateSets_outcome sampleEngine (str "views/master.html")
      [[str "a", str "views/a.html"], [str "b", str "views/b.html"]]).2.2.1 (by decide)).1,
    by decide, by decide, by decide⟩,
   (ParseTemplateSets_outcome sampleEngine (str "views/master.html")
      [[str "a", str "views/a.html"], []]).2.1 (by decide)⟩

/-! ### The lookup name of a path -/

/-- A path has no `/`, or splits at its last `/`. -/
theorem last_slash_cases (p : GoString) :
    47 ∉ p ∨ ∃ pre name, p = pre ++ 47 :: name ∧ 47 ∉ name := by
  induction p with
  | nil => exact Or.inl (by simp)
  | cons b rest ih =>
    rcases ih with h | ⟨pre, name, hp, hn⟩
    · by_cases hb : b = 47
      · exact Or.inr ⟨[], rest, by simp [hb], h⟩
      · refine Or.inl ?_
        intro hm
        rcases List.mem_cons.mp hm with h1 | h1
        · exact hb h1.symm
        · exact h h1
    · exact Or.inr ⟨b :: pre, name, by simp [hp], hn⟩

theorem lastIndexLoop_absent (p : GoString) (c : Nat) (h : c ∉ p) (n : Nat)
    (hn : n ≤ p.length) : lastIndexLoop p c n = -1 := by
  induction n with
  | zero => rfl
  | succ i ih =>
    have hi : i < p.length := hn
    have hne : p.getD i 0 ≠ c := by
      rw [List.getD_eq_getElem?_getD, List.getElem?_eq_getElem hi]
      intro he
      exact h (he ▸ List.getElem_mem hi)
    simp only [lastIndexLoop, if_neg hne]
    exact ih (Nat.le_of_lt hi)

theorem lastIndexLoop_found (pre name : GoString) (c : Nat) (h : c ∉ name) (k : Nat)
    (hk : k ≤ name.length) :
    lastIndexLoop (pre ++ c :: name) c (pre.length + 1 + k) = (pre.length : Int) := by
  induction k with
  | zero =>
    have : (pre ++ c :: name).getD pre.length 0 = c := by
      rw [List.getD_eq_getElem?_getD, List.getElem?_append_right (le_refl _), Nat.sub_self]
      simp
    simp only [Nat.add_zero, lastIndexLoop, this, if_true]
  | succ i ih =>
    have hi : i < name.length := hk
    have hne : (pre ++ c :: name).getD (pre.length + 1 + i) 0 ≠ c := by
      have e : (pre ++ c :: name).getD (pre.length + 1 + i) 0 = name[i] := by
        rw [List.getD_eq_getElem?_getD, List.getElem?_append_right (by omega)]
        have : pre.length + 1 + i - pre.length = i + 1 := by omega
        rw [this]
        simp [List.getElem?_eq_getElem hi]
      rw [e]
      intro he
      exact h (he ▸ List.getElem_mem hi)
    have e2 : pre.length + 1 + (i + 1) = (pre.length + 1 + i) + 1 := by omega
    rw [e2]
    simp only [lastIndexLoop, if_neg hne]
    exact ih (Nat.le_of_lt hi)

/-- Without a `/` the name is the whole path. -/
theorem afterLastSlash_absent (p : GoString) (h : 47 ∉ p) : afterLastSlash p = p := by
  unfold afterLastSlash LastIndexByte sliceFrom
  rw [lastIndexLoop_absent p 47 h p.length le_rfl]
  rfl

/-- After a `/` that no other follows, the name is what follows it. -/
theorem afterLastSlash_found (pre name : GoString) (h : 47 ∉ name) :
    afterLastSlash (pre ++ 47 :: name) = name := by
  unfold afterLastSlash LastIndexByte sliceFrom
  have hl : (pre ++ 47 :: name).length = pre.length + 1 + name.length := by
    simp
    omega
  rw [hl, lastIndexLoop_found pre name 47 h name.length le_rfl]
  have : ((pre.length : Int) + 1).toNat = pre.length + 1 := by omega
  rw [this]
  simp

theorem Split_absent (p : GoString) (c : Nat) (h : c ∉ p) : Split c p = [p] := by
  induction p with
  | nil => rfl
  | cons b rest ih =>
    have hb : b ≠ c := fun e => h (e ▸ List.mem_cons_self _ _)
    have hr : c ∉ rest := fun hm => h (List.mem_cons_of_mem _ hm)
    simp only [Split, if_neg hb, ih hr]

theorem Split_found (pre name : GoString) (c : Nat) (h : c ∉ name) :
    ∃ init, init ≠ [] ∧ Split c (pre ++ c :: name) = init ++ [name] := by
  induction pre with
  | nil =>
    refine ⟨[[]], by simp, ?_⟩
    simp only [List.nil_append, Split, if_true, Split_absent name c h]
    rfl
  | cons b rest ih =>
    obtain ⟨init, hne, hs⟩ := ih
    by_cases hb : b = c
    · refine ⟨[] :: init, by simp, ?_⟩
      simp only [List.cons_append, Split, if_pos hb, List.append_eq, hs]
    · cases init with
      | nil => exact absurd rfl hne
      | cons i0 is =>
        refine ⟨(b :: i0) :: is, by simp, ?_⟩
        simp only [List.cons_append, Split, if_neg hb, List.append_eq, hs]

/-- The two derivations of a lookup name agree. -/
theorem splitLastName_eq (p : GoString) : splitLastName p = afterLastSlash p := by
  rcases last_slash_cases p with h | ⟨pre, name, rfl, hn⟩
  · rw [afterLastSlash_absent p h]
    unfold splitLastName
    rw [Split_absent p 47 h]
    simp
  · rw [afterLastSlash_found pre name hn]
    obtain ⟨init, -, hs⟩ := Split_found pre name 47 hn
    unfold splitLastName
    rw [hs]
    simp [List.getD_eq_getElem?_getD]

/-- What `TrimSpace` returns is made of bytes of its argument. -/
theorem TrimSpace_subset (s : GoString) : ∀ b ∈ TrimSpace s, b ∈ s := by
  intro b hb
  have hleft : ∀ x ∈ TrimLeftSpace s, x ∈ s := by
    intro x hx
    unfold TrimLeftSpace sliceFrom at hx
    split at hx
    · simp at hx
    · exact List.mem_of_mem_drop hx
  have hright : ∀ t : GoString, ∀ x ∈ TrimRightSpace t, x ∈ t := by
    intro t x hx
    unfold TrimRightSpace slice at hx
    simp only [List.drop_zero] at hx
    split at hx <;> exact List.mem_of_mem_take hx
  exact hleft b (hright _ b hb)

/-- The events of the loop of `ParseTemplateSets` start with those it was
given. -/
theorem parseSetsLoop_events {T M : Type} (E : Engine T M) (base name : GoString)
    (sets : List (List GoString)) (acc : Catalog T) (events : List Event) :
    events <+: (parseSetsLoop E base name sets acc events).events := by
  induction sets generalizing acc events with
  | nil => exact List.prefix_refl _
  | cons s rest ih =>
    cases s with
    | nil => exact List.prefix_refl _
    | cons k frags =>
      cases hp : E.parseFiles name ([base] ++ frags) with
      | error e =>
        simp only [parseSetsLoop, hp]
        exact List.prefix_append _ _
      | ok t =>
        simp only [parseSetsLoop, hp]
        exact (List.prefix_append _ _).trans (ih _ _)

/-- C10, the claim as stated fails for `ToHTML`: for the path
`views/ t.html` it names the template `t.html`, while what follows the last
`/` is ` t.html` with its leading blank; the path is not that name and does
not end with `/t.html`. -/
theorem ToHTML_name_is_trimmed :
    (ToHTML sampleEngine true [str "views/ t.html"]).events
        = [.getFuncMap, .parseFiles (str "t.html") [str "views/ t.html"], .execute]
      ∧ afterLastSlash (str "views/ t.html") = str " t.html"
      ∧ str "views/ t.html" ≠ str "t.html"
      ∧ (str "/t.html").isSuffixOf (str "views/ t.html") = false := by
  decide

/-- C10 (amended): for every path `p`, the name taken with `LastIndex` (by
`ToString`, `ToBrowserNoMaster`, `ToBrowserNoMasterNew` and `ToHTMLOld`)
and the name taken with `Split` (by `ParseTemplateSets`) are the same:
everything after the last `/`, the whole of `p` when it has none.  The name
has no `/`, and `p` is the name or ends with `/` followed by the name;
`views/research/template.html` gives `template.html`.  `ToHTML` uses that
name with the white space around it trimmed, which has no `/` either. -/
theorem lookup_name_derivation {T M : Type} (E : Engine T M) (w : ResponseWriter) (model : M)
    (p : GoString) (rest : List GoString) (key : GoString) (frags : List GoString)
    (sets : List (List GoString)) :
    47 ∉ afterLastSlash p
      ∧ (47 ∉ p → afterLastSlash p = p)
      ∧ (p = afterLastSlash p ∨ ∃ pre, p = pre ++ str "/" ++ afterLastSlash p)
      ∧ splitLastName p = afterLastSlash p
      ∧ afterLastSlash (str "views/research/template.html") = str "template.html"
      ∧ [.getFuncMap, .parseFiles (afterLastSlash p) (p :: rest)]
          <+: (ToString E model (p :: rest)).events
      ∧ [.getFuncMap, .parseFiles (afterLastSlash p) [p]]
          <+: (ToBrowserNoMaster E w p model).events
      ∧ [.getFuncMap, .parseFiles (afterLastSlash p) (p :: rest)]
          <+: (ToBrowserNoMasterNew E w model (p :: rest)).events
      ∧ [.getFuncMap, .parseFiles (afterLastSlash p) [p]]
          <+: (ToHTMLOld E p model).events
      ∧ [.getFuncMap, .parseFiles (afterLastSlash p) (p :: frags)]
          <+: (ParseTemplateSets E p ((key :: frags) :: sets)).events
      ∧ [.getFuncMap, .parseFiles (TrimSpace (afterLastSlash p)) (p :: rest)]
          <+: (ToHTML E model (p :: rest)).events
      ∧ 47 ∉ TrimSpace (afterLastSlash p) := by
  have hno : 47 ∉ afterLastSlash p := by
    rcases last_slash_cases p with h | ⟨pre, name, rfl, hn⟩
    · rw [afterLastSlash_absent p h]
      exact h
    · rw [afterLastSlash_found pre name hn]
      exact hn
  have hlen : ¬ (p :: rest).length = 0 := by simp
  refine ⟨hno, afterLastSlash_absent p, ?_, splitLastName_eq p, by decide, ?_, ?_, ?_, ?_, ?_,
    ?_, fun h => hno (TrimSpace_subset _ _ h)⟩
  · rcases last_slash_cases p with h | ⟨pre, name, rfl, hn⟩
    · exact Or.inl (afterLastSlash_absent p h).symm
    · refine Or.inr ⟨pre, ?_⟩
      rw [afterLastSlash_found pre name hn]
      simp [str, utf8Bytes]
  · unfold ToString afterLastSlash
    rw [if_neg hlen]
    simp only [List.getD_cons_zero]
    cases E.parseFiles (sliceFrom p (LastIndexByte p 47 + 1).toNat) (p :: rest) with
    | error e => exact List.prefix_refl _
    | ok t =>
      simp only
      cases (executeToBuffer E t (Data.val model)).2 <;> exact ⟨[.execute], rfl⟩
  · unfold ToBrowserNoMaster afterLastSlash
    cases hp : E.parseFiles (sliceFrom p (LastIndexByte p 47 + 1).toNat) [p] with
    | error e =>
      simp only [hp]
      exact List.prefix_refl _
    | ok t =>
      simp only [hp]
      cases hx : (executeTo E t w (Data.val model)).2 <;> simp only [hx] <;>
        exact ⟨[.execute], rfl⟩
  · unfold ToBrowserNoMasterNew afterLastSlash
    rw [if_neg hlen]
    simp only [List.getD_cons_zero]
    cases E.parseFiles (sliceFrom p (LastIndexByte p 47 + 1).toNat) (p :: rest) with
    | error e => exact List.prefix_refl _
    | ok t =>
      simp only
      cases (executeTo E t w (Data.val model)).2 <;> exact ⟨[.execute], rfl⟩
  · unfold ToHTMLOld afterLastSlash
    cases hp : E.parseFiles (sliceFrom p (LastIndexByte p 47 + 1).toNat) [p] with
    | error e =>
      simp only [hp]
      exact List.prefix_refl _
    | ok t =>
      simp only [hp]
      cases hx : (executeToBuffer E t (Data.val model)).2 <;> simp only [hx] <;>
        exact ⟨[.execute], rfl⟩
  · have hdef : ParseTemplateSets E p ((key :: frags) :: sets)
        = parseSetsLoop E p (splitLastName p) ((key :: frags) :: sets) Catalog.empty
            [.getFuncMap] := rfl
    rw [hdef, splitLastName_eq p]
    cases hp : E.parseFiles (afterLastSlash p) ([p] ++ frags) with
    | error e =>
      simp only [parseSetsLoop, hp]
      exact List.prefix_refl _
    | ok t =>
      simp only [parseSetsLoop, hp]
      exact parseSetsLoop_events E p (afterLastSlash p) sets _ _
  · unfold ToHTML afterLastSlash
    rw [if_neg hlen]
    simp only [List.getD_cons_zero]
    cases E.parseFiles (TrimSpace (sliceFrom p (LastIndexByte p 47 + 1).toNat)) (p :: rest) with
    | error e => exact List.prefix_refl _
    | ok t =>
      simp only
      cases (executeToBuffer E t (Data.val model)).2 <;> exact ⟨[.execute], rfl⟩

/-- C10 (amended) at the path `views/research/template.html`, with the
sample library. -/
theorem lookup_name_derivation_witness :
    splitLastName (str "views/research/template.html") = str "template.html"
      ∧ [.getFuncMap, .parseFiles (str "template.html") [str "views/research/template.html"]]
          <+: (ToString sampleEngine true [str "views/research/template.html"]).events :=
  ⟨(lookup_name_derivation sampleEngine freshResponse true
      (str "views/research/template.html") [] [] [] []).2.2.2.1.trans (by decide),
   (lookup_name_derivation sampleEngine freshResponse true
      (str "views/research/template.html") [] [] [] []).2.2.2.2.2.1⟩

/-! ### The loops bounded by the length run to their end -/

/-- A decoded rune has a width, unless the string is empty and the rune is
the error rune. -/
theorem DecodeRune_width (u : GoString) :
    1 ≤ (DecodeRune u).2 ∨ DecodeRune u = (RuneError, 0) := by
  cases u with
  | nil => exact Or.inr rfl
  | cons s0 t =>
    refine Or.inl ?_
    simp only [DecodeRune]
    generalize (if s0 < 0xE0 then 2 else if s0 < 0xF0 then 3 else 4) = sz
    generalize (if s0 = 0xE0 then 0xA0 else if s0 = 0xF0 then 0x90 else 0x80) = lo
    generalize (if s0 = 0xED then 0x9F else if s0 = 0xF4 then 0x8F else 0xBF) = hi
    by_cases h1 : s0 < 0x80
    · simp [h1]
    · by_cases h2 : (s0 < 0xC2 || 0xF4 < s0) = true
      · simp only [h1, h2, if_true, if_false]
        simp
      · by_cases h3 : (s0 :: t).length < sz
        · simp only [h1, h2, h3, if_true, if_false]
          simp
        · simp only [h1, h2, h3, if_false]
          cases t with
          | nil => simp
          | cons s1 t1 =>
            simp only
            by_cases h4 : (s1 < lo || hi < s1) = true
            · simp only [h4, if_true]
              simp
            · by_cases h5 : sz ≤ 2
              · simp only [h4, h5, if_true, if_false]
                simp
              · simp only [h4, h5, if_false]
                cases t1 with
                | nil => simp
                | cons s2 t2 =>
                  simp only
                  by_cases h6 : (s2 < 0x80 || 0xBF < s2) = true
                  · simp only [h6, if_true]
                    simp
                  · by_cases h7 : sz ≤ 3
                    · simp only [h6, h7, if_true, if_false]
                      simp
                    · simp only [h6, h7, if_false]
                      cases t2 with
                      | nil => simp
                      | cons s3 t3 =>
                        simp only
                        by_cases h8 : (s3 < 0x80 || 0xBF < s3) = true
                        · simp only [h8, if_true]
                          simp
                        · simp only [h8, if_false]
                          simp

theorem IsSpace_RuneError : IsSpace RuneError = false := by decide

theorem DecodeRune_space_width (u : GoString) (h : IsSpace (DecodeRune u).1 = true) :
    1 ≤ (DecodeRune u).2 := by
  rcases DecodeRune_width u with hw | he
  · exact hw
  · rw [he] at h
    simp [IsSpace_RuneError] at h

theorem DecodeLastRune_space_width (u : GoString) (h : IsSpace (DecodeLastRune u).1 = true) :
    1 ≤ (DecodeLastRune u).2 := by
  unfold DecodeLastRune at h ⊢
  simp only at h ⊢
  split_ifs at h ⊢ with h1 h2 h3 h4 h5
  all_goals first
    | (simp [IsSpace_RuneError] at h; done)
    | (simp; done)
    | exact DecodeRune_space_width _ h

theorem jsonEscape_fuel (f1 f2 : Nat) (s : GoString) (h1 : s.length ≤ f1)
    (h2 : s.length ≤ f2) : jsonEscape f1 s = jsonEscape f2 s := by
  induction f1 generalizing f2 s with
  | zero =>
    have : s = [] := List.length_eq_zero.mp (Nat.le_zero.mp h1)
    subst this
    cases f2 <;> rfl
  | succ n1 ih =>
    cases s with
    | nil => cases f2 <;> rfl
    | cons b rest =>
      cases f2 with
      | zero => simp at h2
      | succ n2 =>
        have l1 : rest.length ≤ n1 := by simpa using h1
        have l2 : rest.length ≤ n2 := by simpa using h2
        have d1 : ∀ k, (rest.drop k).length ≤ n1 := fun k => by
          rw [List.length_drop]
          omega
        have d2 : ∀ k, (rest.drop k).length ≤ n2 := fun k => by
          rw [List.length_drop]
          omega
        simp only [jsonEscape]
        rw [ih n2 rest l1 l2, ih n2 _ (d1 _) (d2 _)]

theorem indexNonSpace_fuel (s : GoString) (f1 f2 i : Nat) (h1 : s.length - i ≤ f1)
    (h2 : s.length - i ≤ f2) : indexNonSpace s f1 i = indexNonSpace s f2 i := by
  induction f1 generalizing f2 i with
  | zero =>
    have hi : s.length ≤ i := by omega
    cases f2 with
    | zero => rfl
    | succ n2 => simp only [indexNonSpace, if_pos hi]
  | succ n1 ih =>
    cases f2 with
    | zero =>
      have hi : s.length ≤ i := by omega
      simp only [indexNonSpace, if_pos hi]
    | succ n2 =>
      simp only [indexNonSpace]
      by_cases hi : s.length ≤ i
      · rw [if_pos hi, if_pos hi]
      · rw [if_neg hi, if_neg hi]
        by_cases hs : IsSpace (DecodeRune (sliceFrom s i)).1 = true
        · have hw := DecodeRune_space_width _ hs
          rw [if_pos hs, if_pos hs]
          exact ih n2 _ (by omega) (by omega)
        · rw [if_neg hs, if_neg hs]

theorem lastIndexNonSpace_fuel (s : GoString) (f1 f2 i : Nat) (h1 : i ≤ f1) (h2 : i ≤ f2) :
    lastIndexNonSpace s f1 i = lastIndexNonSpace s f2 i := by
  induction f1 generalizing f2 i with
  | zero =>
    have hi : i = 0 := by omega
    cases f2 with
    | zero => rfl
    | succ n2 => simp only [lastIndexNonSpace, if_pos hi]
  | succ n1 ih =>
    cases f2 with
    | zero =>
      have hi : i = 0 := by omega
      simp only [lastIndexNonSpace, if_pos hi]
    | succ n2 =>
      simp only [lastIndexNonSpace]
      by_cases hi : i = 0
      · rw [if_pos hi, if_pos hi]
      · rw [if_neg hi, if_neg hi]
        by_cases hs : IsSpace (DecodeLastRune (slice s 0 i)).1 = true
        · have hw := DecodeLastRune_space_width _ hs
          rw [if_pos hs, if_pos hs]
          exact ih n2 _ (by omega) (by omega)
        · rw [if_neg hs, if_neg hs]

/-- The loops that are given the length of the string as their bound come
to their end within it: a larger bound gives the same result.  So
`jsonString` escapes the whole string and `TrimSpace` looks at all of the
white space. -/
theorem length_bound_suffices (s : GoString) (fuel : Nat) (h : s.length ≤ fuel) :
    jsonEscape fuel s = jsonEscape s.length s
      ∧ indexNonSpace s fuel 0 = indexNonSpace s s.length 0
      ∧ lastIndexNonSpace s fuel s.length = lastIndexNonSpace s s.length s.length :=
  ⟨jsonEscape_fuel fuel s.length s h le_rfl,
   indexNonSpace_fuel s fuel s.length 0 (by omega) (by omega),
   lastIndexNonSpace_fuel s fuel s.length s.length h le_rfl⟩

/-! ### The attachments -/

/-- What `Write` does to a response: the headers stay, and a connection
that takes every byte appends all of them. -/
theorem Write_effect (w : ResponseWriter) (p : List Nat) :
    (w.Write p).1.header = w.header
      ∧ (w.fault = none → (w.Write p).1.body = w.body ++ p ∧ (w.Write p).2 = none) := by
  have hh : (w.WriteHeader 200).header = w.header
      ∧ (w.WriteHeader 200).body = w.body ∧ (w.WriteHeader 200).fault = w.fault := by
    unfold ResponseWriter.WriteHeader
    cases w.status <;> exact ⟨rfl, rfl, rfl⟩
  unfold ResponseWriter.Write
  cases hf : (w.WriteHeader 200).fault with
  | none =>
    refine ⟨?_, fun _ => ⟨?_, ?_⟩⟩ <;> simp [hf, hh.1, hh.2.1]
  | some ke =>
    obtain ⟨k, text⟩ := ke
    have hw : w.fault ≠ none := by
      rw [← hh.2.2, hf]
      simp
    refine ⟨?_, fun h => absurd h hw⟩
    by_cases hk : p.length ≤ k <;> simp [hf, hk, hh.1]

/-- The response after the three header calls of an attachment. -/
theorem attachment_effect (w : ResponseWriter) (contentType filename : GoString) :
    let w3 := ((w.headerSet (str "Content-Type") contentType).headerSet
      (str "Content-Disposition") (str "attachment;filename=" ++ filename)).headerAdd
      (str "Access-Control-Allow-Credentials") (str "true")
    w3.header (str "Content-Type") = [contentType]
      ∧ w3.header (str "Content-Disposition") = [str "attachment;filename=" ++ filename]
      ∧ w3.body = w.body ∧ w3.fault = w.fault := by
  have k1 : CanonicalMIMEHeaderKey (str "Content-Type") = str "Content-Type" := by decide
  have k2 : CanonicalMIMEHeaderKey (str "Content-Disposition") = str "Content-Disposition" := by
    decide
  have k3 : CanonicalMIMEHeaderKey (str "Access-Control-Allow-Credentials")
      = str "Access-Control-Allow-Credentials" := by decide
  have n1 : str "Content-Type" ≠ str "Content-Disposition" := by decide
  have n2 : str "Content-Type" ≠ str "Access-Control-Allow-Credentials" := by decide
  have n3 : str "Content-Disposition" ≠ str "Access-Control-Allow-Credentials" := by decide
  refine ⟨?_, ?_, rfl, rfl⟩
  · simp only [ResponseWriter.headerAdd, ResponseWriter.headerSet, k1, k2, k3]
    rw [Function.update_noteq n2, Function.update_noteq n1, Function.update_same]
  · simp only [ResponseWriter.headerAdd, ResponseWriter.headerSet, k1, k2, k3]
    rw [Function.update_noteq n3, Function.update_same]

/-- After `WriteTo` and the printing of its error text, the headers are as
before, and a connection that takes every byte has taken the payload. -/
theorem writeTo_or_print_effect (w3 : ResponseWriter) (payload : GoString) :
    (match (bufferWriteTo w3 payload).2 with
      | some err => ((bufferWriteTo w3 payload).1.Write err.Error).1
      | none => (bufferWriteTo w3 payload).1).header = w3.header
      ∧ (w3.fault = none →
        (match (bufferWriteTo w3 payload).2 with
          | some err => ((bufferWriteTo w3 payload).1.Write err.Error).1
          | none => (bufferWriteTo w3 payload).1).body = w3.body ++ payload) := by
  have eff := bufferWriteTo_effect w3 payload
  cases hr : (bufferWriteTo w3 payload).2 with
  | none =>
    simp only
    exact ⟨eff.1, fun _ => eff.2.2.1 hr⟩
  | some err =>
    simp only
    refine ⟨?_, fun h => ?_⟩
    · rw [(Write_effect _ _).1, eff.1]
    · rw [eff.2.2.2 h] at hr
      simp at hr

/-- C11, the claim as stated fails: the disposition the dispatchers set has
no blank after the semicolon; for the file name `a.csv` it is
`attachment;filename=a.csv`, not `attachment; filename=a.csv`. -/
theorem attachment_disposition_has_no_blank :
    (CsvToBrowser freshResponse [] (str "a.csv")).header (str "Content-Disposition")
        = [str "attachment;filename=a.csv"]
      ∧ (CsvToBrowser freshResponse [] (str "a.csv")).header (str "Content-Disposition")
        ≠ [str "attachment; filename=" ++ str "a.csv"]
      ∧ (WriteIcsToBrowser freshResponse [] (str "a.ics")).header (str "Content-Disposition")
        ≠ [str "attachment; filename=" ++ str "a.ics"]
      ∧ (WriteXlsToBrowser freshResponse [] (str "a.xls")).header (str "Content-Disposition")
        ≠ [str "attachment; filename=" ++ str "a.xls"] := by
  decide

/-- C11 (amended): for every payload and every file name `f`,
`CsvToBrowser` sets `Content-Type` to `text/csv`, `WriteIcsToBrowser` to
`text/calendar`, `WriteXlsToBrowser` to `application/vnd.ms-excel`, and each
sets `Content-Disposition` to `attachment;filename=` followed by `f`.  On a
connection that takes every byte, the body written by the calendar and
spreadsheet variants is exactly the given string, and the one written by
the CSV variant is the records as `encoding/csv` writes them. -/
theorem attachment_dispatch (w : ResponseWriter) (csvRecords : List (List GoString))
    (payload f : GoString) :
    ((CsvToBrowser w csvRecords f).header (str "Content-Type") = [str "text/csv"]
        ∧ (CsvToBrowser w csvRecords f).header (str "Content-Disposition")
          = [str "attachment;filename=" ++ f])
      ∧ ((WriteIcsToBrowser w payload f).header (str "Content-Type") = [str "text/calendar"]
        ∧ (WriteIcsToBrowser w payload f).header (str "Content-Disposition")
          = [str "attachment;filename=" ++ f])
      ∧ ((WriteXlsToBrowser w payload f).header (str "Content-Type")
          = [str "application/vnd.ms-excel"]
        ∧ (WriteXlsToBrowser w payload f).header (str "Content-Disposition")
          = [str "attachment;filename=" ++ f])
      ∧ (w.fault = none →
        (WriteIcsToBrowser w payload f).body = w.body ++ payload
          ∧ (WriteXlsToBrowser w payload f).body = w.body ++ payload
          ∧ (CsvToBrowser w csvRecords f).body = w.body ++ csvWriteAll csvRecords) := by
  have hcsv := attachment_effect w (str "text/csv") f
  have hics := attachment_effect w (str "text/calendar") f
  have hxls := attachment_effect w (str "application/vnd.ms-excel") f
  simp only at hcsv hics hxls
  refine ⟨⟨?_, ?_⟩, ⟨?_, ?_⟩, ⟨?_, ?_⟩, fun hw => ⟨?_, ?_, ?_⟩⟩
  · unfold CsvToBrowser
    simp only
    rw [(Write_effect _ _).1, hcsv.1]
  · unfold CsvToBrowser
    simp only
    rw [(Write_effect _ _).1, hcsv.2.1]
  · unfold WriteIcsToBrowser
    simp only
    rw [(writeTo_or_print_effect _ payload).1, hics.1]
  · unfold WriteIcsToBrowser
    simp only
    rw [(writeTo_or_print_effect _ payload).1, hics.2.1]
  · unfold WriteXlsToBrowser
    simp only
    rw [(writeTo_or_print_effect _ payload).1, hxls.1]
  · unfold WriteXlsToBrowser
    simp only
    rw [(writeTo_or_print_effect _ payload).1, hxls.2.1]
  · unfold WriteIcsToBrowser
    simp only
    rw [(writeTo_or_print_effect _ payload).2 (hics.2.2.2.trans hw), hics.2.2.1]
  · unfold WriteXlsToBrowser
    simp only
    rw [(writeTo_or_print_effect _ payload).2 (hxls.2.2.2.trans hw), hxls.2.2.1]
  · unfold CsvToBrowser
    simp only
    rw [((Write_effect _ _).2 (hcsv.2.2.2.trans hw)).1, hcsv.2.2.1]

/-- C11 (amended) on an untouched response: a calendar sent as `cal.ics`. -/
theorem attachment_dispatch_witness :
    (WriteIcsToBrowser freshResponse (str "BEGIN:VCALENDAR") (str "cal.ics")).header
        (str "Content-Disposition") = [str "attachment;filename=cal.ics"]
      ∧ (WriteIcsToBrowser freshResponse (str "BEGIN:VCALENDAR") (str "cal.ics")).body
        = str "BEGIN:VCALENDAR" :=
  ⟨(attachment_dispatch freshResponse [] (str "BEGIN:VCALENDAR") (str "cal.ics")).2.1.2.trans
      (by decide),
   ((attachment_dispatch freshResponse [] (str "BEGIN:VCALENDAR") (str "cal.ics")).2.2.2
      rfl).1⟩

/-! ### The map-building helper -/

theorem keyAt_cons_cons (a b : GoValue) (rest : List GoValue) (key : GoString) (i : Nat) :
    keyAt (a :: b :: rest) (i + 2) key ↔ keyAt rest i key := by
  unfold keyAt
  have : (i + 2) % 2 = i % 2 := by omega
  rw [this]
  simp

theorem keyAt_zero (a b : GoValue) (rest : List GoValue) (key : GoString) :
    keyAt (a :: b :: rest) 0 key ↔ a = .string key := by
  simp [keyAt]

theorem keyAt_one (values : List GoValue) (key : GoString) : ¬ keyAt values 1 key := by
  simp [keyAt]

/-- A key occurs in `a :: b :: rest` at the front or in `rest`. -/
theorem exists_keyAt_cons_cons (a b : GoValue) (rest : List GoValue) (key : GoString) :
    (∃ i, keyAt (a :: b :: rest) i key) ↔ a = .string key ∨ ∃ i, keyAt rest i key := by
  constructor
  · rintro ⟨i, hi⟩
    match i, hi with
    | 0, hi => exact Or.inl ((keyAt_zero a b rest key).mp hi)
    | 1, hi => exact absurd hi (keyAt_one _ _)
    | i + 2, hi => exact Or.inr ⟨i, (keyAt_cons_cons a b rest key i).mp hi⟩
  · rintro (h | ⟨i, hi⟩)
    · exact ⟨0, (keyAt_zero a b rest key).mpr h⟩
    · exact ⟨i + 2, (keyAt_cons_cons a b rest key i).mpr hi⟩

/-- The value after the last occurrence of a key in `a :: b :: rest` is the
one in `rest`, or `b` when the key is `a` and does not occur in `rest`. -/
theorem followsLast_cons_cons (a b : GoValue) (rest : List GoValue) (key : GoString)
    (v : GoValue) :
    followsLast (a :: b :: rest) key v
      ↔ followsLast rest key v ∨ (a = .string key ∧ b = v ∧ ¬ ∃ i, keyAt rest i key) := by
  constructor
  · rintro ⟨i, hi, hv, hlast⟩
    match i, hi, hv, hlast with
    | 0, hi, hv, hlast =>
      refine Or.inr ⟨(keyAt_zero a b rest key).mp hi, by simpa using hv, ?_⟩
      rintro ⟨j, hj⟩
      exact hlast (j + 2) (by omega) ((keyAt_cons_cons a b rest key j).mpr hj)
    | 1, hi, _, _ => exact absurd hi (keyAt_one _ _)
    | i + 2, hi, hv, hlast =>
      refine Or.inl ⟨i, (keyAt_cons_cons a b rest key i).mp hi, by simpa using hv, ?_⟩
      intro j hj hk
      exact hlast (j + 2) (by omega) ((keyAt_cons_cons a b rest key j).mpr hk)
  · rintro (⟨i, hi, hv, hlast⟩ | ⟨ha, hb, hno⟩)
    · refine ⟨i + 2, (keyAt_cons_cons a b rest key i).mpr hi, by simpa using hv, ?_⟩
      intro j hj hk
      match j, hj, hk with
      | j + 2, hj, hk =>
        exact hlast j (by omega) ((keyAt_cons_cons a b rest key j).mp hk)
    · refine ⟨0, (keyAt_zero a b rest key).mpr ha, by simp [hb], ?_⟩
      intro j hj hk
      match j, hj, hk with
      | 1, _, hk => exact absurd hk (keyAt_one _ _)
      | j + 2, _, hk => exact hno ⟨j, (keyAt_cons_cons a b rest key j).mp hk⟩

theorem badKey_cons_cons (a b : GoValue) (rest : List GoValue) :
    badKey (a :: b :: rest) ↔ (∃ x, a = .other x) ∨ badKey rest := by
  unfold badKey
  constructor
  · rintro ⟨i, x, hi, hx⟩
    match i, hi, hx with
    | 0, _, hx => exact Or.inl ⟨x, by simpa using hx⟩
    | 1, hi, _ => simp at hi
    | i + 2, hi, hx => exact Or.inr ⟨i, x, by omega, by simpa using hx⟩
  · rintro (⟨x, hx⟩ | ⟨i, x, hi, hx⟩)
    · exact ⟨0, x, rfl, by simp [hx]⟩
    · exact ⟨i + 2, x, by omega, by simpa using hx⟩

/-- With an even number of arguments and a bad key among them, the loop
returns the key error and no map. -/
theorem dictLoop_badKey : ∀ (values : List GoValue) (dict : Dict),
    values.length % 2 = 0 → badKey values →
    dictLoop values dict = .ret (none, some (.errorf (str "dict keys must be strings")))
  | [], _, _, hb => by
    obtain ⟨i, x, _, hx⟩ := hb
    simp at hx
  | [a], _, hl, _ => by simp at hl
  | .other x :: b :: rest, dict, _, _ => by simp only [dictLoop]
  | .string key :: b :: rest, dict, hl, hb => by
    have hl2 : rest.length % 2 = 0 := by
      simp only [List.length_cons] at hl
      omega
    have hb2 : badKey rest := by
      rcases (badKey_cons_cons _ b rest).mp hb with ⟨x, hx⟩ | h
      · simp at hx
      · exact h
    simp only [dictLoop]
    exact dictLoop_badKey rest _ hl2 hb2

/-- With an even number of arguments and no bad key, the loop returns a
map: the keys are those it started with and the strings at the even
positions, and a key among the arguments is bound to the value after its
last occurrence. -/
theorem dictLoop_ok : ∀ (values : List GoValue) (dict : Dict),
    values.length % 2 = 0 → ¬ badKey values →
    ∃ result, dictLoop values dict = .ret (some result, none)
      ∧ (∀ key, (result key).isSome = true
          ↔ (∃ i, keyAt values i key) ∨ (dict key).isSome = true)
      ∧ (∀ key v, result key = some v
          ↔ followsLast values key v ∨ ((¬ ∃ i, keyAt values i key) ∧ dict key = some v))
  | [], dict, _, _ => by
    refine ⟨dict, rfl, fun key => ?_, fun key v => ?_⟩
    · simp [keyAt]
    · simp [followsLast, keyAt]
  | [a], _, hl, _ => by simp at hl
  | .other x :: b :: rest, _, _, hb => by
    exact absurd ((badKey_cons_cons _ b rest).mpr (Or.inl ⟨x, rfl⟩)) hb
  | .string k :: b :: rest, dict, hl, hb => by
    have hl2 : rest.length % 2 = 0 := by
      simp only [List.length_cons] at hl
      omega
    have hb2 : ¬ badKey rest := fun h => hb ((badKey_cons_cons _ b rest).mpr (Or.inr h))
    obtain ⟨result, hres, hkeys, hvals⟩ :=
      dictLoop_ok rest (Function.update dict k (some b)) hl2 hb2
    refine ⟨result, by simp only [dictLoop, hres], fun key => ?_, fun key v => ?_⟩
    · rw [hkeys key, exists_keyAt_cons_cons]
      by_cases hk : k = key
      · subst hk
        simp
      · have hk2 : key ≠ k := fun h => hk h.symm
        simp [hk, Function.update_noteq hk2]
    · rw [hvals key v, followsLast_cons_cons, exists_keyAt_cons_cons]
      by_cases hk : k = key
      · subst hk
        simp
        tauto
      · have hk2 : key ≠ k := fun h => hk h.symm
        simp [hk, Function.update_noteq hk2]

/-- C12: `DictHelper` returns an error and no map exactly when the number of
arguments is odd or some argument at an even position is not a string (the
error is `invalid dict call` in the first case, `dict keys must be strings`
otherwise).  In every other case it returns, without error, a map whose
keys are exactly the strings at the even positions, each bound to the
argument that follows the key's last occurrence. -/
theorem DictHelper_spec (values : List GoValue) :
    ((∃ e, DictHelper values = .ret (none, some e))
        ↔ (values.length % 2 ≠ 0 ∨ badKey values))
      ∧ (values.length % 2 ≠ 0 →
        DictHelper values = .ret (none, some (.errorf (str "invalid dict call"))))
      ∧ (values.length % 2 = 0 → badKey values →
        DictHelper values = .ret (none, some (.errorf (str "dict keys must be strings"))))
      ∧ (¬ (values.length % 2 ≠ 0 ∨ badKey values) →
        ∃ dict, DictHelper values = .ret (some dict, none)
          ∧ (∀ key, (dict key).isSome = true ↔ ∃ i, keyAt values i key)
          ∧ (∀ key v, dict key = some v ↔ followsLast values key v)) := by
  have hodd : values.length % 2 ≠ 0 →
      DictHelper values = .ret (none, some (.errorf (str "invalid dict call"))) := by
    intro h
    unfold DictHelper
    rw [if_pos h]
  have hbad : values.length % 2 = 0 → badKey values →
      DictHelper values = .ret (none, some (.errorf (str "dict keys must be strings"))) := by
    intro h hb
    unfold DictHelper
    rw [if_neg (by simpa using h)]
    exact dictLoop_badKey values _ h hb
  have hok : ¬ (values.length % 2 ≠ 0 ∨ badKey values) →
      ∃ dict, DictHelper values = .ret (some dict, none)
        ∧ (∀ key, (dict key).isSome = true ↔ ∃ i, keyAt values i key)
        ∧ (∀ key v, dict key = some v ↔ followsLast values key v) := by
    intro h
    have he : values.length % 2 = 0 := by
      by_contra hc
      exact h (Or.inl hc)
    have hb : ¬ badKey values := fun hc => h (Or.inr hc)
    obtain ⟨dict, hres, hkeys, hvals⟩ := dictLoop_ok values (fun _ => none) he hb
    refine ⟨dict, ?_, fun key => ?_, fun key v => ?_⟩
    · unfold DictHelper
      rw [if_neg (by simpa using he)]
      exact hres
    · rw [hkeys key]
      simp
    · rw [hvals key v]
      simp
  refine ⟨⟨?_, ?_⟩, hodd, hbad, hok⟩
  · rintro ⟨e, he⟩
    by_contra hc
    obtain ⟨dict, hd, -⟩ := hok hc
    rw [hd] at he
    simp at he
  · rintro (h | h)
    · exact ⟨_, hodd h⟩
    · by_cases hl : values.length % 2 = 0
      · exact ⟨_, hbad hl h⟩
      · exact ⟨_, hodd hl⟩

/-- C12 at concrete arguments: one argument, and a number as a key, are
refused; `dict "a" 1 "b" "x" "a" 2` binds `a` to the last value given for
it. -/
theorem DictHelper_spec_witness :
    (∃ e, DictHelper [.string (str "a")] = .ret (none, some e))
      ∧ (∃ e, DictHelper [.other 7, .string (str "a")] = .ret (none, some e))
      ∧ ∃ dict, DictHelper [.string (str "a"), .other 1, .string (str "b"),
          .string (str "x"), .string (str "a"), .other 2] = .ret (some dict, none)
        ∧ dict (str "a") = some (.other 2) ∧ (dict (str "c")).isSome = false := by
  refine ⟨(DictHelper_spec [.string (str "a")]).1.mpr (Or.inl (by decide)),
    (DictHelper_spec [.other 7, .string (str "a")]).1.mpr (Or.inr ⟨0, 7, rfl, rfl⟩), ?_⟩
  obtain ⟨dict, hd, hkeys, hvals⟩ :=
    (DictHelper_spec [.string (str "a"), .other 1, .string (str "b"),
      .string (str "x"), .string (str "a"), .other 2]).2.2.2
      (by
        simp only [badKey_cons_cons]
        simp [badKey])
  refine ⟨dict, hd, (hvals _ _).mpr ⟨4, ⟨rfl, rfl⟩, rfl, ?_⟩, ?_⟩
  · rintro j hj ⟨h1, h2⟩
    have hlen : 6 ≤ j := by omega
    rw [List.getElem?_eq_none (by simpa using hlen)] at h2
    simp at h2
  · rw [Bool.eq_false_iff]
    intro hc
    obtain ⟨j, h1, h2⟩ := (hkeys _).mp hc
    match j, h1, h2 with
    | 0, _, h2 => exact absurd h2 (by decide)
    | 2, _, h2 => exact absurd h2 (by decide)
    | 4, _, h2 => exact absurd h2 (by decide)
    | 1, h1, _ => simp at h1
    | 3, h1, _ => simp at h1
    | 5, h1, _ => simp at h1
    | j + 6, _, h2 => simp at h2

/-! ### The small formatters -/

/-- A number below 100 is written by `%02d` as its two decimal digits. -/
theorem fmt02d_two_digits : ∀ k < 100, fmt02d (k : Nat) = [48 + k / 10, 48 + k % 10] := by
  decide

/-- C13: for every `v` with `0 ≤ v ≤ 2359` and `v mod 100 < 60`,
`Int64ToTime v` is the five characters `HH:MM`, `HH` the two decimal digits
of `v / 100` and `MM` those of `v mod 100`, zeros in front included; 835
gives `08:35`. -/
theorem Int64ToTime_spec (v : Int) (h0 : 0 ≤ v) (h1 : v ≤ 2359) (h2 : v % 100 < 60) :
    Int64ToTime v
        = [48 + (v / 100).toNat / 10, 48 + (v / 100).toNat % 10, 58,
            48 + (v % 100).toNat / 10, 48 + (v % 100).toNat % 10]
      ∧ (Int64ToTime v).length = 5
      ∧ (v / 100).toNat < 24 ∧ (v % 100).toNat < 60 := by
  obtain ⟨n, rfl⟩ := Int.eq_ofNat_of_zero_le h0
  have hn : n ≤ 2359 := by omega
  have hd : Int.tdiv (n : Int) 100 = ((n / 100 : Nat) : Int) := rfl
  have hm : Int.tmod (n : Int) 100 = ((n % 100 : Nat) : Int) := rfl
  have e1 : ((n : Int) / 100).toNat = n / 100 := by omega
  have e2 : ((n : Int) % 100).toNat = n % 100 := by omega
  have hh : n / 100 < 100 := by omega
  have hmm : n % 100 < 100 := by omega
  have key : Int64ToTime (n : Int)
      = [48 + n / 100 / 10, 48 + n / 100 % 10, 58, 48 + n % 100 / 10, 48 + n % 100 % 10] := by
    unfold Int64ToTime
    simp only [hd, hm, fmt02d_two_digits _ hh, fmt02d_two_digits _ hmm]
    rfl
  rw [e1, e2]
  refine ⟨key, ?_, by omega, by omega⟩
  rw [key]
  rfl

/-- C13 at 835 and at the last minute of the day. -/
theorem Int64ToTime_spec_witness :
    Int64ToTime 835 = str "08:35" ∧ Int64ToTime 2359 = str "23:59" :=
  ⟨(Int64ToTime_spec 835 (by decide) (by decide) (by decide)).1.trans (by decide),
   (Int64ToTime_spec 2359 (by decide) (by decide) (by decide)).1.trans (by decide)⟩

/-- The loop of `Dashes` appends the literal once a round. -/
theorem dashesLoop_eq (count : Nat) (result : GoString) :
    dashesLoop count result = result ++ (List.replicate count dashLiteral).flatten := by
  induction count generalizing result with
  | zero => simp [dashesLoop]
  | succ k ih =>
    simp only [dashesLoop, ih, List.replicate_succ, List.flatten_cons, List.append_assoc]

/-- A value in the range of `int64` is kept as it is. -/
theorem wrapInt64_of_range (x : Int) (h1 : -9223372036854775808 ≤ x)
    (h2 : x < 9223372036854775808) : wrapInt64 x = x := by
  unfold wrapInt64
  omega

theorem wrapInt64_range (x : Int) :
    -9223372036854775808 ≤ wrapInt64 x ∧ wrapInt64 x < 9223372036854775808 := by
  unfold wrapInt64
  omega

/-- `Dashes` gives `level - 1` copies of its literal, none for a level
below 1. -/
theorem Dashes_copies (level : Int) (h1 : -9223372036854775807 ≤ level)
    (h2 : level < 9223372036854775808) :
    Dashes level = (List.replicate (level - 1).toNat dashLiteral).flatten := by
  unfold Dashes
  rw [wrapInt64_of_range (level - 1) (by omega) (by omega), dashesLoop_eq]
  rfl

/-- C14, the code at the levels its comment names: level 1 gives no dash,
as the comment says, but level 2 gives the dash literal once, not twice,
and level 3 gives it twice. -/
theorem Dashes_level_two_is_one_dash :
    Dashes 1 = []
      ∧ Dashes 2 = dashLiteral
      ∧ Dashes 2 ≠ dashLiteral ++ dashLiteral
      ∧ Dashes 3 = dashLiteral ++ dashLiteral := by
  decide

/-- Wrapping a factor before the product changes nothing. -/
theorem wrapInt64_mul (a b : Int) : wrapInt64 (wrapInt64 a * b) = wrapInt64 (a * b) := by
  have hq : wrapInt64 a
      = a - 18446744073709551616 * ((a + 9223372036854775808) / 18446744073709551616) := by
    unfold wrapInt64
    omega
  have hw : ∀ x y : Int, wrapInt64 (x - 18446744073709551616 * y) = wrapInt64 x := by
    intro x y
    unfold wrapInt64
    have : x - 18446744073709551616 * y + 9223372036854775808
        = x + 9223372036854775808 + 18446744073709551616 * (-y) := by ring
    rw [this, Int.add_mul_emod_self_left]
  rw [hq]
  have : (a - 18446744073709551616 * ((a + 9223372036854775808) / 18446744073709551616)) * b
      = a * b - 18446744073709551616
        * (((a + 9223372036854775808) / 18446744073709551616) * b) := by ring
  rw [this, hw]

/-- The loop of `intPow` with `k` rounds to go, below the largest `m`: it
ends, with the wrapped product of the result so far and `n ^ k`. -/
theorem intPowLoop_spec (n m : Int) (hm : m < 9223372036854775807) :
    ∀ (k fuel : Nat) (i result : Int), 2 ≤ i → i + k = m + 1 → k < fuel →
      wrapInt64 result = result →
      intPowLoop n m fuel i result = some (wrapInt64 (result * n ^ k)) := by
  intro k
  induction k with
  | zero =>
    intro fuel i result hi hk hf hr
    cases fuel with
    | zero => omega
    | succ f =>
      have hgt : ¬ i ≤ m := by omega
      simp only [intPowLoop, if_neg hgt, pow_zero, mul_one, hr]
  | succ k ih =>
    intro fuel i result hi hk hf hr
    cases fuel with
    | zero => omega
    | succ f =>
      have hle : i ≤ m := by omega
      have hi1 : wrapInt64 (i + 1) = i + 1 := wrapInt64_of_range _ (by omega) (by omega)
      have hr1 : wrapInt64 (wrapInt64 (result * n)) = wrapInt64 (result * n) :=
        wrapInt64_of_range _ (wrapInt64_range _).1 (wrapInt64_range _).2
      simp only [intPowLoop, if_pos hle, hi1]
      rw [ih f (i + 1) (wrapInt64 (result * n)) (by omega) (by omega) (by omega) hr1,
        wrapInt64_mul]
      congr 2
      ring

/-- Below the largest exponent `intPow` is the wrapped power: for an
`int64` base `n` and `0 ≤ m < 2^63 - 1` the loop ends within `m` rounds
with `n ^ m` in 64 bits; so `intPow(n, 0) = 1`, `intPow(n, 1) = n`, and for
`0 ≤ p ≤ 18` the divisor `intPow(10, p)` is `10 ^ p` itself. -/
theorem intPow_spec (n m : Int) (fuel : Nat) (hn1 : -9223372036854775808 ≤ n)
    (hn2 : n < 9223372036854775808) (hm0 : 0 ≤ m) (hm : m < 9223372036854775807)
    (hf : m.toNat ≤ fuel) :
    intPow fuel n m = some (wrapInt64 (n ^ m.toNat))
      ∧ intPow fuel n 0 = some 1
      ∧ (1 ≤ fuel → intPow fuel n 1 = some n)
      ∧ (m ≤ 18 → intPow fuel 10 m = some (10 ^ m.toNat)) := by
  have main : ∀ b : Int, wrapInt64 b = b → intPow fuel b m = some (wrapInt64 (b ^ m.toNat)) := by
    intro b hb
    unfold intPow
    by_cases h0 : m = 0
    · subst h0
      simp [wrapInt64]
    · rw [if_neg h0]
      obtain ⟨k, hk⟩ : ∃ k : Nat, m.toNat = k + 1 := ⟨m.toNat - 1, by omega⟩
      rw [intPowLoop_spec b m hm k fuel 2 b le_rfl (by omega) (by omega) hb, hk, pow_succ]
      congr 2
      ring
  have hnw : wrapInt64 n = n := wrapInt64_of_range n hn1 hn2
  refine ⟨main n hnw, by simp [intPow], fun h1 => ?_, fun h18 => ?_⟩
  · unfold intPow
    cases fuel with
    | zero => omega
    | succ f => simp [intPowLoop]
  · rw [main 10 (by decide)]
    have hle : (10 : Int) ^ m.toNat ≤ 10 ^ 18 :=
      pow_le_pow_right₀ (by norm_num) (by omega)
    have hpos : (0 : Int) < 10 ^ m.toNat := by positivity
    rw [wrapInt64_of_range _ (by omega) (by
      have : (10 : Int) ^ 18 < 9223372036854775808 := by norm_num
      omega)]

/-- The statement `intPow_spec` at `10 ^ 4`, the divisor for four decimals. -/
theorem intPow_spec_witness : intPow 4 10 4 = some 10000 :=
  (intPow_spec 10 4 4 (by decide) (by decide) (by decide) (by decide) (by decide)).1.trans
    (by decide)

/-- At the largest exponent the counter of `intPow` never passes `m`. -/
theorem intPowLoop_at_max (n : Int) :
    ∀ (fuel : Nat) (i result : Int), i ≤ 9223372036854775807 →
      intPowLoop n 9223372036854775807 fuel i result = none := by
  intro fuel
  induction fuel with
  | zero => intro i result _; rfl
  | succ f ih =>
    intro i result hi
    simp only [intPowLoop, if_pos hi]
    exact ih _ _ (by have := (wrapInt64_range (i + 1)).2; omega)

/-- C15, the code at the exponent `2^63 - 1`: whatever the base and however
many rounds the loop is given, `intPow` has not returned; the counter wraps
from `2^63 - 1` to `-2^63` and `i <= m` holds again. -/
theorem intPow_never_returns_at_max (fuel : Nat) (n : Int) :
    intPow fuel n 9223372036854775807 = none
      ∧ wrapInt64 (9223372036854775807 + 1) = -9223372036854775808 := by
  refine ⟨?_, by decide⟩
  unfold intPow
  rw [if_neg (by decide)]
  exact intPowLoop_at_max n fuel 2 n (by decide)

end Render
